import Mathlib

/-!
Verification development for the revision-graph engine
(`alembic/script/revision.py`).  The Python module is shallowly embedded:
revision records become a Lean structure, the mutable revision map becomes an
explicit state (an array of records indexed by object identity plus an
insertion-ordered association list from keys to object ids), Python
exceptions become an error sum type threaded through `Except`, and the
mutating build steps become state-passing functions that mirror the source
statement by statement.
-/

namespace Alembic

/-- The exception kinds raised by the module (`RevisionError` and its
subclasses), plus the Python builtin errors the code can run into
(`KeyError`, `AssertionError`/`AttributeError` folded into `PyError`). -/
inductive RevErr where
  | RevisionError (msg : String)
  | RangeNotAncestorError (lower upper : Option String)
  | MultipleHeads (heads : List String) (argument : String)
  | ResolutionError (msg : String) (argument : String)
  | CycleDetected (revisions : List String)
  | DependencyCycleDetected (revisions : List String)
  | LoopDetected (revision : String)
  | DependencyLoopDetected (revision : String)
  | CircularDependencyError
  | KeyError (key : String)
  | PyError (msg : String)
  deriving Repr, DecidableEq

/-- A Python value that is either `None`, a single string, or a
tuple/list of strings: the shape of `down_revision`, `dependencies` and
`branch_labels` arguments and fields. -/
inductive RevArg where
  | none
  | str (s : String)
  | seq (l : List String)
  deriving Repr, DecidableEq

/-- Python truthiness of such a value (`None`, `""` and `()` are falsy). -/
def RevArg.truthy : RevArg → Bool
  | .none => false
  | .str s => !(s = "")
  | .seq l => !l.isEmpty

/-- `util.to_tuple(x, default=())`: `None` becomes the default empty tuple, a
string becomes a one-element tuple, an iterable becomes a tuple.
(For a string Python would iterate characters only when the value is not a
string; `to_tuple` special-cases strings first, as here.) -/
def toTuple : RevArg → List String
  | .none => []
  | .str s => [s]
  | .seq l => l

/-- `tuple_rev_as_scalar`: falsy collapses to `None`, a one-element
collection (including a one-character string, for which `rev[0]` is the same
string) collapses to the bare element, anything else is kept. -/
def tuple_rev_as_scalar : RevArg → RevArg
  | .none => .none
  | .str s => if s = "" then .none else .str s
  | .seq [] => .none
  | .seq [x] => .str x
  | .seq l => .seq l

/-- A `Revision` record.  The first five fields are set by the constructor;
the remaining fields are derived edges filled in during the map build
(`nextrev`, `_all_nextrev` are sets, kept here as insertion-ordered
duplicate-free lists). -/
structure Revision where
  revision : String
  down_revision : RevArg
  dependencies : RevArg
  _orig_branch_labels : List String
  branch_labels : List String
  nextrev : List String := []
  _all_nextrev : List String := []
  _resolved_dependencies : List String := []
  _normalized_resolved_dependencies : List String := []
  deriving Repr, DecidableEq

/-- A throwaway record used as the default for checked array reads that are
never out of range on well-formed states. -/
def dfltRev : Revision :=
  { revision := "", down_revision := .none, dependencies := .none,
    _orig_branch_labels := [], branch_labels := [] }

instance : Inhabited Revision := ⟨dfltRev⟩

def _revision_illegal_chars : List Char := ['@', '-', '+']

/-- `Revision.verify_rev_id`. -/
def verify_rev_id (revision : String) : Except RevErr Unit :=
  if revision.toList.any (fun c => c ∈ _revision_illegal_chars) then
    .error (.RevisionError ("Character(s) not allowed in revision identifier " ++ revision))
  else
    .ok ()

/-- Add an element to a list viewed as an insertion-ordered set
(`frozenset.union` with a singleton). -/
def listAdd (l : List String) (x : String) : List String :=
  if x ∈ l then l else l ++ [x]

/-- `Revision.__init__`: self-loop checks, id validation, scalar
normalization of `down_revision` and `dependencies`. -/
def RevisionInit (revision : String) (down_revision dependencies branch_labels : RevArg) :
    Except RevErr Revision :=
  if down_revision.truthy ∧ revision ∈ toTuple down_revision then
    .error (.LoopDetected revision)
  else if dependencies ≠ RevArg.none ∧ revision ∈ toTuple dependencies then
    .error (.DependencyLoopDetected revision)
  else
    match verify_rev_id revision with
    | .error e => .error e
    | .ok _ =>
      .ok { revision := revision,
            down_revision := tuple_rev_as_scalar down_revision,
            dependencies := tuple_rev_as_scalar dependencies,
            _orig_branch_labels := toTuple branch_labels,
            branch_labels := (toTuple branch_labels).dedup }

/-- `Revision.add_nextrev`: record `rev` as a follower of `self`. -/
def Revision.add_nextrev (self rev : Revision) : Revision :=
  let self' := { self with _all_nextrev := listAdd self._all_nextrev rev.revision }
  if self'.revision ∈ toTuple rev.down_revision then
    { self' with nextrev := listAdd self'.nextrev rev.revision }
  else
    self'

def Revision._versioned_down_revisions (r : Revision) : List String :=
  toTuple r.down_revision

def Revision._all_down_revisions (r : Revision) : List String :=
  toTuple r.down_revision ++ r._resolved_dependencies

def Revision._normalized_down_revisions (r : Revision) : List String :=
  toTuple r.down_revision ++ r._normalized_resolved_dependencies

def Revision.is_head (r : Revision) : Bool := r.nextrev.isEmpty

def Revision._is_real_head (r : Revision) : Bool := r._all_nextrev.isEmpty

def Revision.is_base (r : Revision) : Bool := r.down_revision = RevArg.none

def Revision._is_real_base (r : Revision) : Bool :=
  r.down_revision = RevArg.none ∧ r.dependencies = RevArg.none

def Revision.is_branch_point (r : Revision) : Bool := r.nextrev.length > 1

def Revision._is_real_branch_point (r : Revision) : Bool := r._all_nextrev.length > 1

def Revision.is_merge_point (r : Revision) : Bool := r._versioned_down_revisions.length > 1

/-! ### The revision map state

`map_` is a Python dict: keys (revision ids and, later, branch labels) map
to object ids into `store`.  Insertion order of keys is preserved and an
overwrite keeps the original key position, as in CPython. -/

def assocLookup : List (String × Nat) → String → Option Nat
  | [], _ => Option.none
  | p :: rest, k => if p.1 = k then some p.2 else assocLookup rest k

def assocContains (m : List (String × Nat)) (k : String) : Bool :=
  (assocLookup m k).isSome

def assocInsert (m : List (String × Nat)) (k : String) (v : Nat) : List (String × Nat) :=
  if assocContains m k then
    m.map (fun p => if p.1 = k then (k, v) else p)
  else
    m ++ [(k, v)]

def assocKeys (m : List (String × Nat)) : List String := m.map (fun p => p.1)

/-- The frozen revision map (`RevisionMap` after `_revision_map` has been
memoized): the object store, the key dict, and the four head/base tuples of
ids.  The `None` and `()` sentinel keys of the Python dict are handled at the
lookup sites instead of being stored. -/
structure RMap where
  store : Array Revision
  map_ : List (String × Nat)
  heads : List String
  _real_heads : List String
  bases : List String
  _real_bases : List String
  deriving Repr, DecidableEq

/-- The mutable state threaded through `_revision_map`'s build: the head and
base collections still hold object ids, and warnings accumulate. -/
structure BuildCtx where
  store : Array Revision
  map_ : List (String × Nat)
  heads : List Nat
  _real_heads : List Nat
  bases : List Nat
  _real_bases : List Nat
  hasBranchLabels : List Nat
  warnings : List String
  deriving Repr, DecidableEq

def emptyCtx : BuildCtx :=
  { store := #[], map_ := [], heads := [], _real_heads := [], bases := [],
    _real_bases := [], hasBranchLabels := [], warnings := [] }

/-- One iteration of the first loop of `_revision_map`: index the record,
warn on a duplicate id (the insertion overwrites, so the later record wins),
and seed the head/base collections. -/
def phase1Step (ctx : BuildCtx) (r : Revision) : BuildCtx :=
  let i := ctx.store.size
  let warnings' :=
    if assocContains ctx.map_ r.revision then
      ctx.warnings ++ ["Revision " ++ r.revision ++ " is present more than once"]
    else ctx.warnings
  { store := ctx.store.push r,
    map_ := assocInsert ctx.map_ r.revision i,
    heads := ctx.heads ++ [i],
    _real_heads := ctx._real_heads ++ [i],
    bases := if r.is_base then ctx.bases ++ [i] else ctx.bases,
    _real_bases := if r._is_real_base then ctx._real_bases ++ [i] else ctx._real_bases,
    hasBranchLabels :=
      if !r.branch_labels.isEmpty then ctx.hasBranchLabels ++ [i] else ctx.hasBranchLabels,
    warnings := warnings' }

def buildPhase1 (records : List Revision) : BuildCtx :=
  records.foldl phase1Step emptyCtx

/-! ### Graph traversal (`_iterate_related_revisions`)

The iterative DFS with a shared `visited` set.  The work queue is a deque
used as a stack: items are appended at the right end and popped from the
right end, so we keep the list with its head at the right end.  Edge
selectors take the object id (so that `omit_immediate_dependencies` can test
target membership by identity) and return the ids to follow. -/

/-- Look up each id produced by the edge selector, failing on a missing key
(Python `KeyError`) or an aliased key (the explicit broken-map check). -/
def lookupChildren (map_ : List (String × Nat)) (store : Array Revision) :
    List String → Except RevErr (List Nat)
  | [] => .ok []
  | rid :: rest =>
    match assocLookup map_ rid with
    | Option.none => .error (.KeyError rid)
    | some j =>
      if (store.getD j dfltRev).revision ≠ rid then
        .error (.RevisionError "Dependency resolution failed; broken map")
      else
        (lookupChildren map_ store rest).map (fun l => j :: l)

/-- Drain the deque for one starting revision.  Returns the list of all
popped ids in order (the `per_target` trace, duplicates included), the
visited set, and the ids yielded (popped while unvisited) in order.

The first argument counts remaining loop iterations; every iteration pops
exactly one deque entry, and over a whole drain at most
`todo.length + Σ_j |sel j|` entries are ever present (each already-visited
pop pushes nothing and each fresh pop `j` pushes `|sel j|` entries at most
once), so the canonical budget passed by `walkOne` is never exhausted — the
Python loop simply runs until the deque is empty. -/
def walkOneF (sel : Nat → List String) (map_ : List (String × Nat)) (store : Array Revision) :
    Nat → List Nat → Finset Nat → Except RevErr (List Nat × Finset Nat × List Nat)
  | _, [], seen => .ok ([], seen, [])
  | 0, _ :: _, _ => .error (.PyError "walk budget exhausted")
  | fuel + 1, rev :: rest, seen =>
    if rev < store.size then
      if rev ∈ seen then
        (walkOneF sel map_ store fuel rest seen).map
          (fun r => (rev :: r.1, r.2.1, r.2.2))
      else
        match lookupChildren map_ store (sel rev) with
        | .error e => .error e
        | .ok kids =>
          (walkOneF sel map_ store fuel (kids.reverse ++ rest) (insert rev seen)).map
            (fun r => (rev :: r.1, r.2.1, rev :: r.2.2))
    else
      .error (.PyError "revision object id out of range")

/-- Total length of all edge lists over the store: an upper bound on the
number of deque pushes in one drain. -/
def selBudget (sel : Nat → List String) (store : Array Revision) : Nat :=
  ((List.range store.size).map (fun j => (sel j).length)).sum

def walkOne (sel : Nat → List String) (map_ : List (String × Nat)) (store : Array Revision)
    (todo : List Nat) (seen : Finset Nat) :
    Except RevErr (List Nat × Finset Nat × List Nat) :=
  walkOneF sel map_ store (todo.length + selBudget sel store + 1) todo seen

/-- The outer loop of `_iterate_related_revisions`: one drained walk per
starting revision; in `check` mode the popped trace of each start is
intersected with the other starts and a non-empty overlap is fatal. -/
def iterRelatedAux (sel : Nat → List String) (map_ : List (String × Nat))
    (store : Array Revision) (allTargets : List Nat) (check : Bool) :
    List Nat → Finset Nat → List Nat → Except RevErr (List Nat)
  | [], _, out => .ok out
  | t :: ts, seen, out =>
    match walkOne sel map_ store [t] seen with
    | .error e => .error e
    | .ok (popped, seen2, y) =>
      let overlaps := (popped.filter (fun j => j ∈ allTargets ∧ j ≠ t)).dedup
      if check ∧ ¬overlaps.isEmpty then
        .error (.RevisionError
          ("Requested revision " ++ (store.getD t dfltRev).revision ++
            " overlaps with other requested revisions " ++
            String.intercalate ", " (overlaps.map (fun j => (store.getD j dfltRev).revision))))
      else
        iterRelatedAux sel map_ store allTargets check ts seen2 (out ++ y)

/-- `_iterate_related_revisions(fn, targets, map_, check)`, with the yielded
revisions returned as a list of object ids. -/
def iterRelated (sel : Nat → List String) (map_ : List (String × Nat))
    (store : Array Revision) (targets : List Nat) (check : Bool) :
    Except RevErr (List Nat) :=
  iterRelatedAux sel map_ store targets check targets ∅ []

/-- Edge selector for `_get_ancestor_nodes`. -/
def ancestorSel (store : Array Revision) (includeDependencies : Bool) : Nat → List String :=
  if includeDependencies then
    fun j => (store.getD j dfltRev)._normalized_down_revisions
  else
    fun j => (store.getD j dfltRev)._versioned_down_revisions

/-- Edge selector for `_get_descendant_nodes`. -/
def descendantSel (store : Array Revision) (targets : List Nat)
    (omitImmediateDependencies includeDependencies : Bool) : Nat → List String :=
  if omitImmediateDependencies then
    fun j =>
      if j ∈ targets then (store.getD j dfltRev).nextrev
      else (store.getD j dfltRev)._all_nextrev
  else if includeDependencies then
    fun j => (store.getD j dfltRev)._all_nextrev
  else
    fun j => (store.getD j dfltRev).nextrev

/-! ### The remaining build phases of `_revision_map` -/

/-- Union of two label sets kept as insertion-ordered lists. -/
def unionL (l add : List String) : List String := add.foldl listAdd l

/-- Inner loop of `_map_branch_labels`: install one revision's labels,
failing when a label is already a key of the dict. -/
def mapLabelsOne (i : Nat) : List String → List (String × Nat) →
    List (String × Nat) × Option RevErr
  | [], m => (m, Option.none)
  | lb :: rest, m =>
    if assocContains m lb then
      (m, some (.RevisionError ("Branch name " ++ lb ++ " already used by another revision")))
    else
      mapLabelsOne i rest (assocInsert m lb i)

def mapBranchLabelsAux (store : Array Revision) :
    List Nat → List (String × Nat) → List (String × Nat) × Option RevErr
  | [], m => (m, Option.none)
  | i :: is, m =>
    let r := store.getD i dfltRev
    if !r.branch_labels.isEmpty then
      match mapLabelsOne i r._orig_branch_labels m with
      | (m', Option.none) => mapBranchLabelsAux store is m'
      | (m', some e) => (m', some e)
    else
      mapBranchLabelsAux store is m

/-- `_map_branch_labels(has_branch_labels, map_)`. -/
def mapBranchLabels (ctx : BuildCtx) : BuildCtx × Option RevErr :=
  match mapBranchLabelsAux ctx.store ctx.hasBranchLabels ctx.map_ with
  | (m', e) => ({ ctx with map_ := m' }, e)

/-- Resolve a dependency name list against the dict (`[map_[dep] for dep in
util.to_tuple(revision.dependencies)]`), then read each target's id. -/
def resolveDeps (m : List (String × Nat)) (store : Array Revision) :
    List String → Except RevErr (List String)
  | [] => .ok []
  | d :: rest =>
    match assocLookup m d with
    | Option.none => .error (.KeyError d)
    | some j =>
      (resolveDeps m store rest).map (fun l => (store.getD j dfltRev).revision :: l)

def addDependsOnAux (m : List (String × Nat)) :
    List Nat → Array Revision → Array Revision × Option RevErr
  | [], store => (store, Option.none)
  | i :: is, store =>
    let r := store.getD i dfltRev
    if r.dependencies.truthy then
      match resolveDeps m store (toTuple r.dependencies) with
      | .error e => (store, some e)
      | .ok resolved =>
        addDependsOnAux m is (store.setD i { r with _resolved_dependencies := resolved })
    else
      addDependsOnAux m is (store.setD i { r with _resolved_dependencies := [] })

/-- `_add_depends_on(all_revisions, map_)`. -/
def addDependsOn (ctx : BuildCtx) : BuildCtx × Option RevErr :=
  match addDependsOnAux ctx.map_ (List.range ctx.store.size) ctx.store with
  | (store', e) => ({ ctx with store := store' }, e)

/-- The forward-edge loop of `_revision_map`: for one revision (object id
`i`) process its `_all_down_revisions` list.  A missing down revision is
warned about, after which the unconditional dict access raises `KeyError`
anyway. -/
def wireOne (i : Nat) (vdowns : List String) :
    List String → BuildCtx → BuildCtx × Option RevErr
  | [], ctx => (ctx, Option.none)
  | d :: rest, ctx =>
    let ctx :=
      if !assocContains ctx.map_ d then
        { ctx with warnings := ctx.warnings ++
            ["Revision " ++ d ++ " referenced from " ++
              (ctx.store.getD i dfltRev).revision ++ " is not present"] }
      else ctx
    match assocLookup ctx.map_ d with
    | Option.none => (ctx, some (.KeyError d))
    | some j =>
      let ctx :=
        { ctx with
          store := ctx.store.setD j
            ((ctx.store.getD j dfltRev).add_nextrev (ctx.store.getD i dfltRev)),
          heads := if d ∈ vdowns then ctx.heads.filter (fun x => x ≠ j) else ctx.heads,
          _real_heads := ctx._real_heads.filter (fun x => x ≠ j) }
      wireOne i vdowns rest ctx

def wireEdgesAux : List (String × Nat) → BuildCtx → BuildCtx × Option RevErr
  | [], ctx => (ctx, Option.none)
  | (_, i) :: rest, ctx =>
    let r := ctx.store.getD i dfltRev
    match wireOne i (toTuple r.down_revision) r._all_down_revisions ctx with
    | (ctx', Option.none) => wireEdgesAux rest ctx'
    | (ctx', some e) => (ctx', some e)

/-- The `for rev in map_.values()` loop (branch-label keys alias their
revision, so labeled revisions are processed once per key, as in the
source; `add_nextrev` is idempotent so this is harmless). -/
def wireEdges (ctx : BuildCtx) : BuildCtx × Option RevErr :=
  wireEdgesAux ctx.map_ ctx

def normalizeAux (m : List (String × Nat)) :
    List Nat → Array Revision → Array Revision × Option RevErr
  | [], store => (store, Option.none)
  | i :: is, store =>
    let r := store.getD i dfltRev
    if r._resolved_dependencies.isEmpty then
      normalizeAux m is (store.setD i { r with _normalized_resolved_dependencies := [] })
    else
      match iterRelated (ancestorSel store false) m store [i] false with
      | .error e => (store, some e)
      | .ok ancs =>
        let normalized := r._resolved_dependencies.filter (fun d =>
          !(ancs.any (fun a => a ≠ i ∧ d ∈ (store.getD a dfltRev)._resolved_dependencies)))
        normalizeAux m is
          (store.setD i { r with _normalized_resolved_dependencies := normalized })

/-- `_normalize_depends_on(all_revisions, map_)`: drop resolved dependencies
that some (version-only) ancestor also declares.  (The source materializes
an unordered set; only membership in the result is ever consumed, and we
keep the declaration order.) -/
def normalizeDependsOn (ctx : BuildCtx) : BuildCtx × Option RevErr :=
  match normalizeAux ctx.map_ (List.range ctx.store.size) ctx.store with
  | (store', e) => ({ ctx with store := store' }, e)

/-- Code-point comparison of strings (Python string order); written on the
character lists so that it evaluates inside the kernel. -/
def lexLe : List Char → List Char → Bool
  | [], _ => true
  | _ :: _, [] => false
  | a :: as, b :: bs =>
    if a.toNat < b.toNat then true
    else if b.toNat < a.toNat then false
    else lexLe as bs

def strLe (a b : String) : Bool := lexLe a.data b.data

def insertSorted (x : String) : List String → List String
  | [] => [x]
  | y :: ys => if strLe x y then x :: y :: ys else y :: insertSorted x ys

/-- `sorted(...)` on strings (insertion sort; structural so it computes). -/
def sortStrings : List String → List String
  | [] => []
  | x :: xs => insertSorted x (sortStrings xs)

/-- `c in s` on a string, via the character list. -/
def strHasChar (s : String) (c : Char) : Bool := s.data.contains c

/-- `x.startswith(pre)`, via the character lists. -/
def startsWithS (x pre : String) : Bool := pre.data.isPrefixOf x.data

def revIdsOf (store : Array Revision) (l : List Nat) : List String :=
  l.map (fun j => (store.getD j dfltRev).revision)

/-- `set(rev_map.keys()) - total_space` where `total_space` is the
intersection of the ids reached from the heads with those reached from the
bases. -/
def deletedOf (snapshot : List (String × Nat)) (store : Array Revision)
    (l1 l2 : List Nat) : List String :=
  (assocKeys snapshot).filter
    (fun k => k ∉ (revIdsOf store l1).filter (fun k2 => k2 ∈ revIdsOf store l2))

/-- `_detect_cycles(rev_map, heads, bases, _real_heads, _real_bases)`.
`snapshot` is the `rev_map` copy taken before branch labels were added to
the dict, so traversal lookups resolve against revision ids only. -/
def detectCycles (snapshot : List (String × Nat)) (store : Array Revision)
    (heads bases realHeads realBases : List Nat) : Except RevErr Unit :=
  if snapshot.isEmpty then .ok ()
  else if heads.isEmpty ∨ bases.isEmpty then
    .error (.CycleDetected (assocKeys snapshot))
  else
    match iterRelated (fun j => (store.getD j dfltRev)._versioned_down_revisions)
        snapshot store heads false with
    | .error e => .error e
    | .ok fromHeads =>
    match iterRelated (fun j => (store.getD j dfltRev).nextrev)
        snapshot store bases false with
    | .error e => .error e
    | .ok fromBases =>
      let deleted := deletedOf snapshot store fromHeads fromBases
      if !deleted.isEmpty then
        .error (.CycleDetected (sortStrings deleted))
      else if realHeads.isEmpty ∨ realBases.isEmpty then
        .error (.DependencyCycleDetected (assocKeys snapshot))
      else
        match iterRelated (fun j => (store.getD j dfltRev)._all_down_revisions)
            snapshot store realHeads false with
        | .error e => .error e
        | .ok fromRealHeads =>
        match iterRelated (fun j => (store.getD j dfltRev)._all_nextrev)
            snapshot store realBases false with
        | .error e => .error e
        | .ok fromRealBases =>
          let deleted2 := deletedOf snapshot store fromRealHeads fromRealBases
          if !deleted2.isEmpty then
            .error (.DependencyCycleDetected (sortStrings deleted2))
          else
            .ok ()

/-- The upward half of `_add_branches`: walk along `down_revision` while the
node is neither a real branch point nor a merge point, adding the labels.
(On a cyclic chain the Python loop would not terminate; the fuel returns an
error instead, which no acyclic map ever reaches.) -/
def addBranchesUp (m : List (String × Nat)) (labels : List String) :
    Nat → Option Nat → Array Revision → Except RevErr (Array Revision)
  | 0, _, _ => .error (.PyError "label propagation does not terminate")
  | _ + 1, Option.none, store => .ok store
  | fuel + 1, some p, store =>
    let r := store.getD p dfltRev
    if !r._is_real_branch_point ∧ !r.is_merge_point then
      let store' := store.setD p { r with branch_labels := unionL r.branch_labels labels }
      match r.down_revision with
      | .none => .ok store'
      | .str s =>
        match assocLookup m s with
        | Option.none => .error (.KeyError s)
        | some j => addBranchesUp m labels fuel (some j) store'
      | .seq [] => .ok store'
      | .seq _ => .error (.KeyError "tuple used as dict key")
    else
      .ok store

def addBranchesOne (m : List (String × Nat)) (store : Array Revision) (i : Nat) :
    Except RevErr (Array Revision) :=
  let r := store.getD i dfltRev
  if !r.branch_labels.isEmpty then
    match iterRelated (descendantSel store [i] false false) m store [i] false with
    | .error e => .error e
    | .ok nodes =>
      let labels := r.branch_labels
      let store1 := nodes.foldl (fun st j =>
        st.setD j (let n := st.getD j dfltRev; { n with branch_labels := unionL n.branch_labels labels })) store
      match nodes.getLast? with
      | Option.none => .ok store1
      | some last => addBranchesUp m labels (store.size + 1) (some last) store1
  else
    .ok store

def addBranchesAux (m : List (String × Nat)) :
    List Nat → Array Revision → Except RevErr (Array Revision)
  | [], store => .ok store
  | i :: is, store =>
    match addBranchesOne m store i with
    | .error e => .error e
    | .ok store' => addBranchesAux m is store'

/-- `_add_branches(has_branch_labels, map_)`: spread each originally-labeled
revision's labels over its versioned descendants, then walk upward from the
last-yielded descendant. -/
def addBranches (m : List (String × Nat)) (ids : List Nat) (store : Array Revision) :
    Except RevErr (Array Revision) :=
  addBranchesAux m ids store

/-- The whole of `_revision_map`: the build pipeline in source order,
returning the accumulated warnings along with the frozen map or the raised
error. -/
def buildMap (records : List Revision) : List String × Except RevErr RMap :=
  let c0 := buildPhase1 records
  let snapshot := c0.map_
  match mapBranchLabels c0 with
  | (c1, some e) => (c1.warnings, .error e)
  | (c1, Option.none) =>
  match addDependsOn c1 with
  | (c2, some e) => (c2.warnings, .error e)
  | (c2, Option.none) =>
  match wireEdges c2 with
  | (c3, some e) => (c3.warnings, .error e)
  | (c3, Option.none) =>
  match normalizeDependsOn c3 with
  | (c4, some e) => (c4.warnings, .error e)
  | (c4, Option.none) =>
  match detectCycles snapshot c4.store c4.heads c4.bases c4._real_heads c4._real_bases with
  | .error e => (c4.warnings, .error e)
  | .ok _ =>
    match addBranches c4.map_ c4.hasBranchLabels c4.store with
    | .error e => (c4.warnings, .error e)
    | .ok store' =>
      (c4.warnings, .ok
        { store := store',
          map_ := c4.map_,
          heads := revIdsOf c4.store c4.heads,
          _real_heads := revIdsOf c4.store c4._real_heads,
          bases := revIdsOf c4.store c4.bases,
          _real_bases := revIdsOf c4.store c4._real_bases })

instance {ε α : Type} [DecidableEq ε] [DecidableEq α] : DecidableEq (Except ε α)
  | .ok a, .ok b => if h : a = b then isTrue (by rw [h]) else isFalse (by simp [h])
  | .ok _, .error _ => isFalse (by simp)
  | .error _, .ok _ => isFalse (by simp)
  | .error a, .error b => if h : a = b then isTrue (by rw [h]) else isFalse (by simp [h])

/-! ### Identifier parsing helpers -/

/-- `id_.split("@", 1)` when the string contains `@`; otherwise no branch
qualifier. -/
def splitBranch (s : String) : Option String × String :=
  if strHasChar s '@' then
    let pre := s.data.takeWhile (fun c => !(c = '@'))
    (some (String.mk pre), String.mk (s.data.drop (pre.length + 1)))
  else
    (Option.none, s)

def natOfDigits (cs : List Char) : Nat :=
  cs.foldl (fun acc c => acc * 10 + (c.toNat - '0'.toNat)) 0

/-- Strip surrounding whitespace from a character list. -/
def trimChars (cs : List Char) : List Char :=
  ((cs.dropWhile Char.isWhitespace).reverse.dropWhile Char.isWhitespace).reverse

/-- Python `int(s)` on the strings this module feeds it: optional
surrounding whitespace, an optional sign, then decimal digits. -/
def pyIntParse (s : String) : Option Int :=
  match trimChars s.data with
  | '-' :: rest =>
    if !rest.isEmpty ∧ rest.all Char.isDigit then some (-(Int.ofNat (natOfDigits rest)))
    else Option.none
  | '+' :: rest =>
    if !rest.isEmpty ∧ rest.all Char.isDigit then some (Int.ofNat (natOfDigits rest))
    else Option.none
  | cs =>
    if !cs.isEmpty ∧ cs.all Char.isDigit then some (Int.ofNat (natOfDigits cs))
    else Option.none

/-- ASCII model of the regex word class `\w`. -/
def isWordChar (c : Char) : Bool := c.isAlphanum ∨ c = '_'

/-- Match `(\w+)?((?:\+|-)\d+)` at the start of the character list, trailing
characters permitted (`re.match` does not anchor the end).  Shrinking the
greedy word run only ever exposes more word characters, never a sign, so no
backtracking inside the run is needed. -/
def matchTailRel (cs : List Char) : Option (Option String × Int) :=
  let w := cs.takeWhile isWordChar
  match cs.drop w.length with
  | c :: ds =>
    if c = '+' ∨ c = '-' then
      let digits := ds.takeWhile Char.isDigit
      if digits.isEmpty then Option.none
      else
        some (if w.isEmpty then Option.none else some (String.mk w),
          if c = '-' then -(Int.ofNat (natOfDigits digits)) else Int.ofNat (natOfDigits digits))
    else Option.none
  | [] => Option.none

/-- Scan for the lazy group `(.+?)@`: the shortest non-empty prefix followed
by `@` after which the tail pattern matches. -/
def relSplitScan : List Char → List Char → Option (Option String × Option String × Int)
  | _, [] => Option.none
  | acc, c :: rest =>
    if c = '@' ∧ !acc.isEmpty then
      match matchTailRel rest with
      | some (g2, v) => some (some (String.mk acc.reverse), g2, v)
      | Option.none => relSplitScan (acc ++ [c]) rest
    else
      relSplitScan (acc ++ [c]) rest

/-- `_relative_destination.match(destination)` for the pattern
`(?:(.+?)@)?(\w+)?((?:\+|-)\d+)`: returns `(branch_label, symbol, offset)`
on a match.  (`.` is modelled as any character; the module never feeds it
newlines.) -/
def relativeMatch (s : String) : Option (Option String × Option String × Int) :=
  match relSplitScan [] s.toList with
  | some r => some r
  | Option.none => (matchTailRel s.toList).map (fun p => (Option.none, p.1, p.2))

/-! ### The resolver (`_resolve_revision_number`, `_revision_for_ident`,
`get_revisions` and friends)

These methods are mutually recursive in the source (for instance
`get_current_head` filters through `_shares_lineage`, which resolves
identifiers again).  They are embedded as a structure of functions built by
recursion on a depth budget: level `n + 1` implements every method's body
verbatim, delegating nested calls to level `n`.  Legitimate inputs need only
a small constant depth; the zero level, which no such input reaches, fails
with a sentinel error. -/

/-- The argument shape `get_revisions` accepts: a single identifier
(possibly `None`) or a collection of identifier strings. -/
inductive IdInput where
  | single (s : Option String)
  | seq (l : List String)
  deriving Repr, DecidableEq

def idInputOfArg : RevArg → IdInput
  | .none => .single Option.none
  | .str s => .single (some s)
  | .seq l => .seq l

def idInputOfLower : Option String → IdInput
  | Option.none => .single Option.none
  | some s => .single (some s)

/-- Truthiness of an optional branch-label string. -/
def blTruthy : Option String → Bool
  | Option.none => false
  | some s => !(s = "")

/-- The candidate filter of the partial lookup:
`x and len(x) > 3 and x.startswith(resolved_id)` over the dict keys. -/
def prefixCandPred (rid : String) (x : String) : Bool :=
  !(x = "") ∧ x.length > 3 ∧ startsWithS x rid

/-- `"%s@head" % branch_label if branch_label else "head"`. -/
def headArgOf (bl : Option String) : String :=
  match bl with
  | some b => if !(b = "") then b ++ "@head" else "head"
  | Option.none => "head"

structure Fns where
  resolveRevisionNumber : RMap → Option String → Except RevErr (List String × Option String)
  getCurrentHead : RMap → Option String → Except RevErr (Option String)
  filterForLineage : RMap → List String → Option String → Bool → Except RevErr (List String)
  sharesLineage : RMap → String → List String → Bool → Except RevErr Bool
  revForIdent : RMap → Option String → Option String → Except RevErr (Option Nat)
  resolveBranch : RMap → String → Except RevErr (Option Nat)
  getRevisions : RMap → IdInput → Except RevErr (List (Option Nat))
  getRevision : RMap → Option String → Except RevErr (Option Nat)
  walkDown : RMap → Option Nat → Nat → Except RevErr (Option Nat)

def recursionStop : RevErr := .PyError "resolver recursion limit"

def errFns : Fns :=
  { resolveRevisionNumber := fun _ _ => .error recursionStop,
    getCurrentHead := fun _ _ => .error recursionStop,
    filterForLineage := fun _ _ _ _ => .error recursionStop,
    sharesLineage := fun _ _ _ _ => .error recursionStop,
    revForIdent := fun _ _ _ => .error recursionStop,
    resolveBranch := fun _ _ => .error recursionStop,
    getRevisions := fun _ _ => .error recursionStop,
    getRevision := fun _ _ => .error recursionStop,
    walkDown := fun _ _ _ => .error recursionStop }

/-- Resolve each element of a collection and concatenate
(`sum([self.get_revisions(id_elem) for id_elem in id_], ())`). -/
def seqResolve (g : Option String → Except RevErr (List (Option Nat))) :
    List String → Except RevErr (List (Option Nat))
  | [] => .ok []
  | s :: rest => do
    let a ← g (some s)
    let b ← seqResolve g rest
    .ok (a ++ b)

/-- Resolve each id of a tuple through `_revision_for_ident`. -/
def identResolveAll (h : String → Except RevErr (Option Nat)) :
    List String → Except RevErr (List (Option Nat))
  | [] => .ok []
  | r :: rest => do
    let a ← h r
    let b ← identResolveAll h rest
    .ok (a :: b)

/-- The head filter of the `branch@-n` path:
`[head for head in select_heads if branch_label in head.branch_labels]`
(attribute access on a `None` head would raise in Python). -/
def selectByLabel (store : Array Revision) (b : String) :
    List (Option Nat) → Except RevErr (List (Option Nat))
  | [] => .ok []
  | Option.none :: _ => .error (.PyError "AttributeError: NoneType has no branch_labels")
  | some j :: rest => do
    let r ← selectByLabel store b rest
    .ok (if b ∈ (store.getD j dfltRev).branch_labels then some j :: r else r)

/-- The head selection of the negative-number path: all heads when no
branch label was given, otherwise only the heads carrying the label. -/
def selHeadsFor (store : Array Revision) (blOpt : Option String)
    (sh : List (Option Nat)) : Except RevErr (List (Option Nat)) :=
  match blOpt with
  | Option.none => .ok sh
  | some b => selectByLabel store b sh

/-- `tuple(self.walk_down(head, steps=rint) for head in select_heads)`. -/
def walkAll (w : Option Nat → Nat → Except RevErr (Option Nat)) (steps : Nat) :
    List (Option Nat) → Except RevErr (List (Option Nat))
  | [] => .ok []
  | h :: rest => do
    let a ← w h steps
    let b ← walkAll w steps rest
    .ok (a :: b)

/-- The loop of `walk_down`: step along the single `down_revision` chain,
returning `None` past a base and failing on a merge point. -/
def walkDownLoopH (g : IdInput → Except RevErr (List (Option Nat))) (store : Array Revision) :
    Option Nat → Nat → Except RevErr (Option Nat)
  | start, 0 => .ok start
  | Option.none, _ + 1 => .error (.PyError "assert start is not None")
  | some j, n + 1 => do
    let children ← g (idInputOfArg (store.getD j dfltRev).down_revision)
    match children with
    | [] => .ok Option.none
    | [c] => walkDownLoopH g store c n
    | _ => .error (.RevisionError "Tried to walk down across a merge")

/-- `[tg for tg in targets if self._shares_lineage(tg, shares, ...)]`. -/
def filterShares (p : String → Except RevErr Bool) :
    List String → Except RevErr (List String)
  | [] => .ok []
  | t :: rest => do
    let b ← p t
    let r ← filterShares p rest
    .ok (if b then t :: r else r)

/-- The tail of `_revision_for_ident`: the branch-membership check applied
to a found revision. -/
def finLineage (shl : String → List String → Except RevErr Bool) (store : Array Revision)
    (branch_rev : Option Nat) (check_branch : Option String) (rid : String) (j : Nat) :
    Except RevErr (Option Nat) :=
  if blTruthy check_branch then
    match branch_rev with
    | Option.none => .error (.PyError "AttributeError: NoneType has no revision")
    | some b => do
      let sh ← shl (store.getD j dfltRev).revision [(store.getD b dfltRev).revision]
      if sh then .ok (some j)
      else
        .error (.ResolutionError
          ("Revision " ++ (store.getD j dfltRev).revision ++ " is not a member of branch " ++
            (match check_branch with | some cb => cb | Option.none => "")) rid)
  else
    .ok (some j)

/-- Build the resolver at a given recursion depth. -/
def mkFns : Nat → Fns
  | 0 => errFns
  | fuel + 1 =>
    let prev := mkFns fuel
    { resolveRevisionNumber := fun st id_ =>
        let pr := match id_ with
          | some s => (let p := splitBranch s; (p.1, some p.2))
          | Option.none => (Option.none, Option.none)
        match pr.2 with
        | Option.none => .ok ([], pr.1)
        | some s =>
          if s = "heads" then
            if blTruthy pr.1 then
              (prev.filterForLineage st st.heads pr.1 false).map (fun l => (l, pr.1))
            else
              .ok (st._real_heads, pr.1)
          else if s = "head" then
            (prev.getCurrentHead st pr.1).map (fun ch =>
              (match ch with | some h => [h] | Option.none => [], pr.1))
          else if s = "base" then
            .ok ([], pr.1)
          else
            .ok ([s], pr.1),
      getCurrentHead := fun st bl =>
        match (if blTruthy bl then prev.filterForLineage st st.heads bl false
               else Except.ok st.heads) with
        | .error e => .error e
        | .ok current_heads =>
          if current_heads.length > 1 then
            .error (.MultipleHeads current_heads (headArgOf bl))
          else
            .ok current_heads.head?,
      filterForLineage := fun st targets check_against includeDeps => do
        let pr ← prev.resolveRevisionNumber st check_against
        let shares :=
          (match pr.2 with
           | some b => if !(b = "") then [b] else []
           | Option.none => []) ++ pr.1
        filterShares (fun tg => prev.sharesLineage st tg shares includeDeps) targets,
      sharesLineage := fun st target test includeDeps =>
        if test.isEmpty then .ok true
        else do
          let tgtObj ← prev.revForIdent st (some target) Option.none
          match tgtObj with
          | Option.none => .error (.PyError "NoneType in lineage traversal")
          | some tj => do
            let testObjs ← identResolveAll
              (fun r => prev.revForIdent st (some r) Option.none) test
            let desc ← iterRelated (descendantSel st.store [tj] false includeDeps)
              st.map_ st.store [tj] false
            let anc ← iterRelated (ancestorSel st.store includeDeps)
              st.map_ st.store [tj] false
            .ok ((desc ++ anc).any (fun j => some j ∈ testObjs)),
      revForIdent := fun st resolved_id check_branch => do
        let branch_rev ←
          if blTruthy check_branch then
            match check_branch with
            | some cb => prev.resolveBranch st cb
            | Option.none => .ok Option.none
          else
            .ok Option.none
        match resolved_id with
        | Option.none => .ok Option.none
        | some rid =>
          match assocLookup st.map_ rid with
          | some j =>
            finLineage (fun a b => prev.sharesLineage st a b false) st.store
              branch_rev check_branch rid j
          | Option.none => do
            let revs0 := (assocKeys st.map_).filter (prefixCandPred rid)
            let revs ←
              match branch_rev with
              | some _ => prev.filterForLineage st revs0 check_branch false
              | Option.none => .ok revs0
            match revs with
            | [] =>
              .error (.ResolutionError
                ("No such revision or branch " ++ rid ++
                  (if rid.length < 4 then
                    "; please ensure at least four characters are present for partial revision identifier matches"
                   else "")) rid)
            | [r] =>
              (match assocLookup st.map_ r with
               | some j =>
                 finLineage (fun a b => prev.sharesLineage st a b false) st.store
                   branch_rev check_branch rid j
               | Option.none => .error (.KeyError r))
            | _ :: _ :: _ =>
              .error (.ResolutionError
                ("Multiple revisions start with " ++ rid ++ ": " ++
                  String.intercalate ", " (revs.take 3)) rid),
      resolveBranch := fun st branch_label =>
        match assocLookup st.map_ branch_label with
        | some j => .ok (some j)
        | Option.none =>
          match prev.revForIdent st (some branch_label) Option.none with
          | .error (.ResolutionError _ _) =>
            .error (.ResolutionError ("No such branch: " ++ branch_label) branch_label)
          | .error e => .error e
          | .ok r => .ok r,
      getRevisions := fun st arg =>
        match arg with
        | .seq l => seqResolve (fun s => prev.getRevisions st (.single s)) l
        | .single s => do
          let pr ← prev.resolveRevisionNumber st s
          let normal := fun (_ : Unit) =>
            identResolveAll (fun rid => prev.revForIdent st (some rid) pr.2) pr.1
          match pr.1 with
          | [one] =>
            (match pyIntParse one with
             | some v =>
               if v < 0 then do
                 let sh ← prev.getRevisions st (.single (some "heads"))
                 let sel ←
                   match pr.2 with
                   | Option.none => .ok sh
                   | some b => selectByLabel st.store b sh
                 walkAll (prev.walkDown st) v.natAbs sel
               else
                 normal ()
             | Option.none => normal ())
          | _ => normal (),
      getRevision := fun st id_ => do
        let pr ← prev.resolveRevisionNumber st id_
        match pr.1 with
        | _ :: _ :: _ =>
          .error (.MultipleHeads pr.1 (match id_ with | some s => s | Option.none => "None"))
        | [r] => prev.revForIdent st (some r) pr.2
        | [] => prev.revForIdent st Option.none pr.2,
      walkDown := fun st start steps =>
        match start with
        | Option.none => .error (.PyError "assert: Cant walk down from nowhere")
        | some j => walkDownLoopH (prev.getRevisions st) st.store (some j) steps }

/-- Depth budget amply covering every legitimate call chain in the module. -/
def resolverFuel : Nat := 16

def get_revisions (st : RMap) (arg : IdInput) : Except RevErr (List (Option Nat)) :=
  (mkFns resolverFuel).getRevisions st arg

def get_revision (st : RMap) (id_ : Option String) : Except RevErr (Option Nat) :=
  (mkFns resolverFuel).getRevision st id_

def get_current_head (st : RMap) (bl : Option String) : Except RevErr (Option String) :=
  (mkFns resolverFuel).getCurrentHead st bl

def _revision_for_ident (st : RMap) (resolved_id check_branch : Option String) :
    Except RevErr (Option Nat) :=
  (mkFns resolverFuel).revForIdent st resolved_id check_branch

def filter_for_lineage (st : RMap) (targets : List String) (check_against : Option String) :
    Except RevErr (List String) :=
  (mkFns resolverFuel).filterForLineage st targets check_against false

def walk_down (st : RMap) (start : Option Nat) (steps : Nat) : Except RevErr (Option Nat) :=
  (mkFns resolverFuel).walkDown st start steps

/-! ### `walk_up` and the upgrade planner -/

/-- The candidate filter of `walk_up`
(`branch_label is None or branch_label in rev.branch_labels`; the label test
on a `None` candidate would raise in Python). -/
def filterByLabelW (store : Array Revision) (bl : Option String) :
    List (Option Nat) → Except RevErr (List (Option Nat))
  | [] => .ok []
  | c :: rest =>
    match bl with
    | Option.none => (filterByLabelW store bl rest).map (fun l => c :: l)
    | some b =>
      match c with
      | Option.none => .error (.PyError "AttributeError: NoneType has no branch_labels")
      | some j =>
        (filterByLabelW store bl rest).map (fun l =>
          if b ∈ (store.getD j dfltRev).branch_labels then some j :: l else l)

/-- `rev for rev in self._revision_map.values() if rev is not None and
rev.down_revision is None`, in dict value order (branch-label keys alias
their revision objects, as in the source). -/
def rootsOf (st : RMap) : List (Option Nat) :=
  (st.map_.map (fun p => some p.2)).filter (fun c =>
    match c with
    | some j => (st.store.getD j dfltRev).down_revision = RevArg.none
    | Option.none => false)

/-- The loop of `walk_up`: step along `nextrev`, restricted to a branch
label when given; no candidate returns `None`, several is fatal. -/
def walkUpLoop (f : Fns) (st : RMap) (bl : Option String) :
    Nat → Option Nat → Except RevErr (Option Nat)
  | 0, start => .ok start
  | n + 1, start => do
    let candidates ←
      match start with
      | Option.none => .ok (rootsOf st)
      | some j => f.getRevisions st (.seq (st.store.getD j dfltRev).nextrev)
    let children ← filterByLabelW st.store bl candidates
    match children with
    | [] => .ok Option.none
    | [c] => walkUpLoop f st bl n c
    | _ => .error (.RevisionError "Tried to walk up across a branch")

/-- `walk_up(start, steps, branch_label)`: a string start is resolved with
`get_revision` first. -/
def walk_upS (f : Fns) (st : RMap) (start : Sum String (Option Nat)) (steps : Nat)
    (bl : Option String) : Except RevErr (Option Nat) := do
  let s0 ←
    match start with
    | .inl idStr => f.getRevision st (some idStr)
    | .inr o => .ok o
  walkUpLoop f st bl steps s0

/-- `_parse_upgrade_target(current_revisions, target)` for a string target
and a `None`-or-string `lower` (the shapes the planner claims exercise).
The result is the Python value before the caller's `util.to_tuple`: `none`
stands for Python `None` (which makes the planner's assertion fail), `some
l` for a tuple of revisions. -/
def parseUpgradeTarget (f : Fns) (st : RMap) (lower : Option String) (target : String) :
    Except RevErr (Option (List (Option Nat))) :=
  match relativeMatch target with
  | some (branch_label, symbol, relative) =>
    if relative > 0 then
      match symbol with
      | Option.none =>
        (match lower.map (fun s => [s]) with
         | Option.none => .error (.PyError "TypeError: object of type NoneType has no len")
         | some current_revisions =>
           if h : current_revisions.length = 1 then do
             let rev ← walk_upS f st (.inl (current_revisions.head (by
               intro hn; rw [hn] at h; simp at h))) relative.toNat branch_label
             match rev with
             | Option.none =>
               .error (.RevisionError "Relative revision did not produce migrations")
             | some j => .ok (some [some j])
           else
             .error (.PyError "assert len(current_revisions) == 1: Ambiguous upgrade"))
      | some sym => do
        let r ← f.getRevision st (some sym)
        let w ← walk_upS f st (.inr r) relative.toNat branch_label
        .ok (match w with | some j => some [some j] | Option.none => Option.none)
    else
      match symbol with
      | Option.none =>
        .error (.RevisionError "Relative revision did not produce migrations")
      | some sym => do
        let startRev ←
          match branch_label with
          | Option.none => f.getRevision st (some sym)
          | some bl => f.getRevision st (some (bl ++ "@" ++ sym))
        let w ← f.walkDown st startRev relative.natAbs
        .ok (match w with | some j => some [some j] | Option.none => Option.none)
  | Option.none =>
    if strHasChar target '@' then
      (f.getRevision st (some target)).map (fun r =>
        match r with | some j => some [some j] | Option.none => Option.none)
    else
      (f.getRevisions st (.single (some target))).map (fun l => some l)

/-! ### Topological sort

The edge construction of `RevisionMap.topological_sort` is in the source;
the sort itself is delegated to `sqlalchemy.util.topological.sort`, which is
not part of this repository. -/

/-- Can `x` be emitted: no edge into `x` from a parent still pending?
(A parent outside the item set never blocks.) -/
def kahnReady (edges : List (String × String)) (remaining : List String) (x : String) : Bool :=
  edges.all (fun pc => pc.2 ≠ x ∨ pc.1 ∉ remaining)

/-- Modelled from the spec: the deterministic Kahn-style topological sort the
source delegates to `sqlalchemy.util.topological.sort` (code not in this
repository) — "deterministic Kahn-style sort … ties are broken by
lexicographic order of id".  Among the pending items, listed in sorted
order, the first one all of whose pending parents are emitted is emitted
next; if none is ready the set is cyclic and the sort fails. -/
def kahnSortAux (edges : List (String × String)) :
    Nat → List String → Except RevErr (List String)
  | 0, remaining => if remaining.isEmpty then .ok [] else .error .CircularDependencyError
  | n + 1, remaining =>
    if remaining.isEmpty then .ok []
    else
      match remaining.find? (kahnReady edges remaining) with
      | some x => (kahnSortAux edges n (remaining.erase x)).map (fun l => x :: l)
      | Option.none => .error .CircularDependencyError

def kahnSort (edges : List (String × String)) (items : List String) :
    Except RevErr (List String) :=
  kahnSortAux edges items.length items

/-- The edge list of `topological_sort`: `(parent, child)` pairs taken from
each member's declared `down_revision` tuple and its *raw* `dependencies`
tuple (not the resolved dependencies). -/
def topoEdges (store : Array Revision) (revisions : List Nat) : List (String × String) :=
  ((revisions.map (fun i =>
    (toTuple (store.getD i dfltRev).down_revision).map
      (fun rev => (rev, (store.getD i dfltRev).revision)))).flatten) ++
  ((revisions.map (fun i =>
    (toTuple (store.getD i dfltRev).dependencies).map
      (fun parent => (parent, (store.getD i dfltRev).revision)))).flatten)

/-- `RevisionMap.topological_sort(revisions)`: ids sorted topologically,
parents first, ties broken by sorted id order. -/
def topological_sort (store : Array Revision) (revisions : List Nat) :
    Except RevErr (List String) :=
  kahnSort (topoEdges store revisions) (sortStrings (revIdsOf store revisions))

/-! ### The upgrade planner (`_iterate_revisions_upgrade`) -/

/-- Set union on object-id lists, keeping first-occurrence order. -/
def listUnionN (a b : List Nat) : List Nat :=
  b.foldl (fun l x => if x ∈ l then l else l ++ [x]) a.dedup

def listDiffN (a b : List Nat) : List Nat := a.filter (fun x => x ∉ b)

def listInterN (a b : List Nat) : List Nat := a.filter (fun x => x ∈ b)

/-- Extract object ids, failing on a Python `None` entry (whose traversal
would raise an attribute error in the source). -/
def expectIds : List (Option Nat) → Except RevErr (List Nat)
  | [] => .ok []
  | Option.none :: _ => .error (.PyError "AttributeError: NoneType in node set")
  | some j :: rest => (expectIds rest).map (fun l => j :: l)

/-- The branch filter applied to the targets when `lower` is
branch-qualified:
`{need for need in targets if branch in need.branch_labels}`. -/
def filterTargetsByBranch (store : Array Revision) (b : String) :
    List (Option Nat) → Except RevErr (List (Option Nat))
  | [] => .ok []
  | Option.none :: _ => .error (.PyError "AttributeError: NoneType has no branch_labels")
  | some j :: rest =>
    (filterTargetsByBranch store b rest).map (fun l =>
      if b ∈ (store.getD j dfltRev).branch_labels then some j :: l else l)

/-- `_iterate_revisions_upgrade(upper, lower, inclusive=…, implicit_base=…)`:
parse the target, compute
`needs = (ancestors(targets) ∪ targets) - (ancestors(lower) ∪ lower)`
with the `inclusive` and `implicit_base` adjustments, and yield the
*reversed* topological sort resolved back through `get_revision`. -/
def iterateRevisionsUpgrade (f : Fns) (st : RMap) (upper : String) (lower : Option String)
    (inclusive implicit_base : Bool) : Except RevErr (List (Option Nat)) := do
  let tRaw? ← parseUpgradeTarget f st lower upper
  match tRaw? with
  | Option.none => .error (.PyError "assert targets is not None")
  | some tRaw => do
    let targets ←
      match lower with
      | some ls =>
        if strHasChar ls '@' then do
          let branch := String.mk (ls.data.takeWhile (fun c => !(c = '@')))
          let br ← f.getRevision st (some branch)
          let branch2 ←
            match br with
            | some bj =>
              if (st.store.getD bj dfltRev).revision = branch then
                match (st.store.getD bj dfltRev).branch_labels with
                | [l] => pure l
                | _ => Except.error (.PyError "assert len(branch_rev.branch_labels) == 1")
              else pure branch
            | Option.none => pure branch
          (filterTargetsByBranch st.store branch2 tRaw).map (fun l => l.dedup)
        else pure tRaw
      | Option.none => pure tRaw
    let tgtIds ← expectIds targets
    let anc ← iterRelated (ancestorSel st.store true) st.map_ st.store tgtIds true
    let required := listUnionN anc tgtIds
    let curRaw ← f.getRevisions st (idInputOfLower lower)
    let curIds ← expectIds curRaw
    let ancCur ← iterRelated (ancestorSel st.store true) st.map_ st.store curIds true
    let current := listUnionN ancCur curIds
    let needs0 := listDiffN required current
    let needs1 ←
      if inclusive then do
        let lr ← f.getRevisions st (idInputOfLower lower)
        let lrIds ← expectIds lr
        pure (listUnionN needs0 lrIds)
      else pure needs0
    let needs ←
      if !curIds.isEmpty ∧ !implicit_base then do
        let desc ← iterRelated (descendantSel st.store curIds false false)
          st.map_ st.store curIds true
        pure (listInterN needs1 desc)
      else pure needs1
    let sorted ← topological_sort st.store needs
    sorted.reverse.mapM (fun node => f.getRevision st (some node))

/-- The planner entry with the module's canonical resolver depth. -/
def upgradePlan (st : RMap) (upper : String) (lower : Option String)
    (inclusive implicit_base : Bool) : Except RevErr (List (Option Nat)) :=
  iterateRevisionsUpgrade (mkFns resolverFuel) st upper lower inclusive implicit_base

/-- The planner's `needs` set for `inclusive=False, implicit_base=False`,
in terms of the traversal results: `(ancestors(targets) ∪ targets) -
(ancestors(current) ∪ current)`, intersected with the descendants of the
current revisions when there are any. -/
def plannerNeeds (anc tgtIds ancCur curIds desc : List Nat) : List Nat :=
  if curIds.isEmpty then
    listDiffN (listUnionN anc tgtIds) (listUnionN ancCur curIds)
  else
    listInterN (listDiffN (listUnionN anc tgtIds) (listUnionN ancCur curIds)) desc

/-! ### Specification-side helpers used by the theorems -/

def emptyRMap : RMap :=
  { store := #[], map_ := [], heads := [], _real_heads := [], bases := [], _real_bases := [] }

instance : Inhabited RMap := ⟨emptyRMap⟩

/-- Unwrap a successfully built map (all uses are on providers whose build
is proved to succeed). -/
def exOk (e : Except RevErr RMap) : RMap :=
  match e with
  | .ok m => m
  | .error _ => emptyRMap

/-- Position of the first occurrence of `x` (list length when absent). -/
def posOf : List String → String → Nat
  | [], _ => 0
  | a :: l, x => if x = a then 0 else posOf l x + 1

/-- The index of the last record carrying a given id, the slot its id maps
to after the duplicate-overwriting insertion loop. -/
def lastIdxWith : List Revision → String → Option Nat
  | [], _ => Option.none
  | r :: rest, k =>
    match lastIdxWith rest k with
    | some i => some (i + 1)
    | Option.none => if r.revision = k then some 0 else Option.none

/-- A revision object id is a value of the dict. -/
def inMapValues (m : List (String × Nat)) (j : Nat) : Bool :=
  m.any (fun p => p.2 = j)

/-- Well-formedness of a frozen map as needed for plain-id resolution: every
dict value is a store index whose id is again a dict key, contains no `@`
and is not a reserved symbolic name. -/
def mapWF (st : RMap) : Bool :=
  st.map_.all (fun p =>
    decide (p.2 < st.store.size) &&
    (let rid := (st.store.getD p.2 dfltRev).revision
     assocContains st.map_ rid &&
     !strHasChar rid '@' &&
     !(rid = "heads") && !(rid = "head") && !(rid = "base")))

/-- Reachability along an edge selector through the dict: the closure the
DFS of `_iterate_related_revisions` explores. -/
inductive Reaches (sel : Nat → List String) (m : List (String × Nat)) (t : Nat) : Nat → Prop
  | refl : Reaches sel m t t
  | step {j k : Nat} (rid : String) :
      Reaches sel m t j → rid ∈ sel j → assocLookup m rid = some k → Reaches sel m t k

/-- Decidable check that a node list is closed under the selector's edges:
an invariant certifying non-reachability. -/
def closedUnder (sel : Nat → List String) (m : List (String × Nat)) (S : List Nat) : Bool :=
  S.all (fun a => (sel a).all (fun rid =>
    match assocLookup m rid with
    | some b => b ∈ S
    | Option.none => true))

/-! ### Concrete providers used by the claims -/

/-- The §8 scenario: `A ← B ← C`, `B ← D`, side chain `E ← F`, and `D`
depends on `F`. -/
def scenarioRecs : List Revision :=
  [{ revision := "A", down_revision := .none, dependencies := .none,
     _orig_branch_labels := [], branch_labels := [] },
   { revision := "B", down_revision := .str "A", dependencies := .none,
     _orig_branch_labels := [], branch_labels := [] },
   { revision := "C", down_revision := .str "B", dependencies := .none,
     _orig_branch_labels := [], branch_labels := [] },
   { revision := "D", down_revision := .str "B", dependencies := .str "F",
     _orig_branch_labels := [], branch_labels := [] },
   { revision := "E", down_revision := .none, dependencies := .none,
     _orig_branch_labels := [], branch_labels := [] },
   { revision := "F", down_revision := .str "E", dependencies := .none,
     _orig_branch_labels := [], branch_labels := [] }]

def scenarioMap : RMap := exOk (buildMap scenarioRecs).2

/-- Two records forming the two-cycle `X(down=Y)`, `Y(down=X)`. -/
def xyCycleRecs : List Revision :=
  [{ revision := "X", down_revision := .str "Y", dependencies := .none,
     _orig_branch_labels := [], branch_labels := [] },
   { revision := "Y", down_revision := .str "X", dependencies := .none,
     _orig_branch_labels := [], branch_labels := [] }]

/-- A provider with a directed down-cycle (`c1 ↔ c2`) that stays reachable
from the head `h` and keeps the base `b`, so the intersection test sees
every node. -/
def evadeCycleRecs : List Revision :=
  [{ revision := "b", down_revision := .none, dependencies := .none,
     _orig_branch_labels := [], branch_labels := [] },
   { revision := "c1", down_revision := .seq ["b", "c2"], dependencies := .none,
     _orig_branch_labels := [], branch_labels := [] },
   { revision := "c2", down_revision := .str "c1", dependencies := .none,
     _orig_branch_labels := [], branch_labels := [] },
   { revision := "h", down_revision := .str "c2", dependencies := .none,
     _orig_branch_labels := [], branch_labels := [] }]

/-- A healthy versioned chain `b ← h` beside the dependency-only cycle
`c1 ⇄ c2`: the versioned intersection covers every node, but in the
dependency view `c1` and `c2` are unreachable from the real head `h`. -/
def depCycleRecs : List Revision :=
  [{ revision := "b", down_revision := .none, dependencies := .none,
     _orig_branch_labels := [], branch_labels := [] },
   { revision := "h", down_revision := .str "b", dependencies := .none,
     _orig_branch_labels := [], branch_labels := [] },
   { revision := "c1", down_revision := .none, dependencies := .str "c2",
     _orig_branch_labels := [], branch_labels := [] },
   { revision := "c2", down_revision := .none, dependencies := .str "c1",
     _orig_branch_labels := [], branch_labels := [] }]

/-- A single revision whose only edge names an id absent from the map. -/
def missingEdgeRecs : List Revision :=
  [{ revision := "AAAA", down_revision := .str "missing", dependencies := .none,
     _orig_branch_labels := [], branch_labels := [] }]

/-- One six-character revision id, for prefix resolution. -/
def prefixRecs : List Revision :=
  [{ revision := "abcdef", down_revision := .none, dependencies := .none,
     _orig_branch_labels := [], branch_labels := [] }]

def prefixMap : RMap := exOk (buildMap prefixRecs).2

/-- Two records with the same id `XXXX` (the first a base, the second with a
down revision), plus the referenced base `BBBB`. -/
def dupRecs : List Revision :=
  [{ revision := "XXXX", down_revision := .none, dependencies := .none,
     _orig_branch_labels := [], branch_labels := [] },
   { revision := "XXXX", down_revision := .str "BBBB", dependencies := .none,
     _orig_branch_labels := [], branch_labels := [] },
   { revision := "BBBB", down_revision := .none, dependencies := .none,
     _orig_branch_labels := [], branch_labels := [] }]

/-- `ccc ← xxx ← bbb`: the middle node is left out of the sorted set. -/
def midChainRecs : List Revision :=
  [{ revision := "ccc", down_revision := .none, dependencies := .none,
     _orig_branch_labels := [], branch_labels := [] },
   { revision := "xxx", down_revision := .str "ccc", dependencies := .none,
     _orig_branch_labels := [], branch_labels := [] },
   { revision := "bbb", down_revision := .str "xxx", dependencies := .none,
     _orig_branch_labels := [], branch_labels := [] }]

def midChainMap : RMap := exOk (buildMap midChainRecs).2

/-- A diamond-free overlap: `Abc1 ← Bcd2`, with two children `Xyz3` and
`Cde4` of `Bcd2`; the reach sets of the two children overlap on the
non-start nodes `Bcd2` and `Abc1` only. -/
def overlapRecs : List Revision :=
  [{ revision := "Abc1", down_revision := .none, dependencies := .none,
     _orig_branch_labels := [], branch_labels := [] },
   { revision := "Bcd2", down_revision := .str "Abc1", dependencies := .none,
     _orig_branch_labels := [], branch_labels := [] },
   { revision := "Xyz3", down_revision := .str "Bcd2", dependencies := .none,
     _orig_branch_labels := [], branch_labels := [] },
   { revision := "Cde4", down_revision := .str "Bcd2", dependencies := .none,
     _orig_branch_labels := [], branch_labels := [] }]

def overlapMap : RMap := exOk (buildMap overlapRecs).2

/-- Two independent base revisions: a map with two heads. -/
def twoHeadsRecs : List Revision :=
  [{ revision := "H100", down_revision := .none, dependencies := .none,
     _orig_branch_labels := [], branch_labels := [] },
   { revision := "H200", down_revision := .none, dependencies := .none,
     _orig_branch_labels := [], branch_labels := [] }]

def twoHeadsMap : RMap := exOk (buildMap twoHeadsRecs).2

/-- A three-node chain `t1 ← m1 ← h1` whose head carries the branch label
`lbl`. -/
def labeledChainRecs : List Revision :=
  [{ revision := "t1", down_revision := .none, dependencies := .none,
     _orig_branch_labels := [], branch_labels := [] },
   { revision := "m1", down_revision := .str "t1", dependencies := .none,
     _orig_branch_labels := [], branch_labels := [] },
   { revision := "h1", down_revision := .str "m1", dependencies := .none,
     _orig_branch_labels := ["lbl"], branch_labels := ["lbl"] }]

def labeledChainMap : RMap := exOk (buildMap labeledChainRecs).2

/-! ## Theorems -/

/-- C4: the spec (and the warning the code itself emits) promise that a
`down`/dependency edge naming an id absent from the map is warned about and
skipped, the build completing so the partial map can be queried.  The code
instead falls through to the unconditional dict access right after warning:
building the one-record provider whose `down_revision` is the absent id
`missing` emits the warning and then fails with `KeyError("missing")`. -/
theorem C4_code_bug :
    buildMap missingEdgeRecs =
      (["Revision missing referenced from AAAA is not present"],
        .error (.KeyError "missing")) := rfl

/-- C9: constructor normalization.  An empty collection or empty string
passed as `down_revision` is stored as `None` (so `is_base` holds), a
one-element collection is stored as the bare string, and the same
normalization applies to `dependencies`, so a revision constructed with
empty `down` and `deps` collections satisfies `_is_real_base`. -/
theorem C9_constructor_normalization :
    (∀ (rid : String) (labels : RevArg), verify_rev_id rid = .ok () →
      ∃ r, RevisionInit rid (RevArg.seq []) (RevArg.seq []) labels = .ok r ∧
        r.down_revision = RevArg.none ∧ r.dependencies = RevArg.none ∧
        r.is_base = true ∧ r._is_real_base = true) ∧
    (∀ (rid : String) (labels : RevArg), rid ≠ "" → verify_rev_id rid = .ok () →
      ∃ r, RevisionInit rid (RevArg.str "") (RevArg.str "") labels = .ok r ∧
        r.down_revision = RevArg.none ∧ r.dependencies = RevArg.none ∧
        r.is_base = true ∧ r._is_real_base = true) ∧
    (∀ (rid x : String) (labels : RevArg), rid ≠ x → verify_rev_id rid = .ok () →
      ∃ r, RevisionInit rid (RevArg.seq [x]) RevArg.none labels = .ok r ∧
        r.down_revision = RevArg.str x) ∧
    (∀ (rid x : String) (labels : RevArg), rid ≠ x → verify_rev_id rid = .ok () →
      ∃ r, RevisionInit rid RevArg.none (RevArg.seq [x]) labels = .ok r ∧
        r.dependencies = RevArg.str x) := by
  refine ⟨?_, ?_, ?_, ?_⟩
  · intro rid labels hok
    have h : RevisionInit rid (RevArg.seq []) (RevArg.seq []) labels =
        .ok { revision := rid, down_revision := RevArg.none, dependencies := RevArg.none,
              _orig_branch_labels := toTuple labels,
              branch_labels := (toTuple labels).dedup } := by
      simp [RevisionInit, toTuple, RevArg.truthy, hok, tuple_rev_as_scalar]
    exact ⟨_, h, rfl, rfl, rfl, rfl⟩
  · intro rid labels hne hok
    have h : RevisionInit rid (RevArg.str "") (RevArg.str "") labels =
        .ok { revision := rid, down_revision := RevArg.none, dependencies := RevArg.none,
              _orig_branch_labels := toTuple labels,
              branch_labels := (toTuple labels).dedup } := by
      simp [RevisionInit, toTuple, RevArg.truthy, hok, tuple_rev_as_scalar, hne]
    exact ⟨_, h, rfl, rfl, rfl, rfl⟩
  · intro rid x labels hne hok
    have h : RevisionInit rid (RevArg.seq [x]) RevArg.none labels =
        .ok { revision := rid, down_revision := RevArg.str x, dependencies := RevArg.none,
              _orig_branch_labels := toTuple labels,
              branch_labels := (toTuple labels).dedup } := by
      simp [RevisionInit, toTuple, RevArg.truthy, hok, tuple_rev_as_scalar, hne]
    exact ⟨_, h, rfl⟩
  · intro rid x labels hne hok
    have h : RevisionInit rid RevArg.none (RevArg.seq [x]) labels =
        .ok { revision := rid, down_revision := RevArg.none, dependencies := RevArg.str x,
              _orig_branch_labels := toTuple labels,
              branch_labels := (toTuple labels).dedup } := by
      simp [RevisionInit, toTuple, RevArg.truthy, hok, tuple_rev_as_scalar, hne]
    exact ⟨_, h, rfl⟩

theorem C9_constructor_normalization_witness :
    (∃ r, RevisionInit "abcd" (RevArg.seq []) (RevArg.seq []) RevArg.none = .ok r ∧
      r.down_revision = RevArg.none ∧ r.dependencies = RevArg.none ∧
      r.is_base = true ∧ r._is_real_base = true) ∧
    (∃ r, RevisionInit "abcd" (RevArg.seq ["efgh"]) RevArg.none RevArg.none = .ok r ∧
      r.down_revision = RevArg.str "efgh") :=
  ⟨C9_constructor_normalization.1 "abcd" RevArg.none (by decide),
   C9_constructor_normalization.2.2.1 "abcd" "efgh" RevArg.none (by decide) (by decide)⟩

/-- C8: `get_current_head` (optionally branch-filtered) raises
`MultipleHeads` carrying the filtered head tuple and the argument exactly
when that tuple has more than one entry; with one entry it returns the
unique head id, and with no heads it returns `None` (`List.head?` covers
both). -/
theorem C8_multiple_heads : ∀ (F : Nat) (st : RMap) (bl : Option String) (hs : List String),
    (if blTruthy bl then (mkFns F).filterForLineage st st.heads bl false
     else Except.ok st.heads) = .ok hs →
    (((mkFns (F + 1)).getCurrentHead st bl =
        .error (.MultipleHeads hs (headArgOf bl)) ↔ hs.length > 1) ∧
     (hs.length ≤ 1 → (mkFns (F + 1)).getCurrentHead st bl = .ok hs.head?)) := by
  intro F st bl hs hf
  have hbody : (mkFns (F + 1)).getCurrentHead st bl =
      (if hs.length > 1 then
        .error (.MultipleHeads hs (headArgOf bl))
       else .ok hs.head?) := by
    simp only [mkFns]
    rw [hf]
  constructor
  · rw [hbody]
    by_cases h : hs.length > 1
    · simp [h]
    · simp [h]
  · intro hle
    rw [hbody]
    simp [Nat.not_lt.mpr hle]

theorem C8_multiple_heads_witness :
    get_current_head twoHeadsMap Option.none =
      .error (.MultipleHeads ["H100", "H200"] "head") :=
  ((C8_multiple_heads 15 twoHeadsMap Option.none ["H100", "H200"] rfl).1).mpr (by decide)

theorem exceptOkBind {ε α β : Type} (a : α) (f : α → Except ε β) :
    (Except.ok (ε := ε) a >>= f) = f a := rfl

theorem exceptErrBind {ε α β : Type} (e : ε) (f : α → Except ε β) :
    (Except.error (α := α) e >>= f) = Except.error e := rfl

/-- C3 (counterexample): the claim says a query shorter than four characters
with no exact match fails with `ResolutionError`; but the four-character
minimum in the code applies to the *candidate keys* (`len(x) > 3`), not to
the query, so on the map holding only `abcdef` the one-character query `a`
resolves successfully. -/
theorem C3_counterexample :
    "a".length < 4 ∧
    assocLookup prefixMap.map_ "a" = Option.none ∧
    _revision_for_ident prefixMap (some "a") Option.none = .ok (some 0) :=
  ⟨by decide, rfl, rfl⟩

/-- C3 (amended): on a miss, `_revision_for_ident` collects every key of
length at least four that starts with the query, whatever the query's
length: an exact hit resolves directly; exactly one candidate wins; zero
candidates raise `ResolutionError` (the message adds the four-character hint
for short queries); several candidates raise `ResolutionError` with the
ambiguity list.  In particular a prefix of length ≥ 4 matching only one id
resolves to it, and a shorter query with a unique long match also
resolves. -/
theorem C3_amended : ∀ (F : Nat) (st : RMap) (rid : String),
    (∀ j, assocLookup st.map_ rid = some j →
      (mkFns (F + 1)).revForIdent st (some rid) Option.none = .ok (some j)) ∧
    (assocLookup st.map_ rid = Option.none →
      (let cands := (assocKeys st.map_).filter (prefixCandPred rid)
       (cands = [] → ∃ msg, (mkFns (F + 1)).revForIdent st (some rid) Option.none =
          .error (.ResolutionError msg rid)) ∧
       (∀ r j, cands = [r] → assocLookup st.map_ r = some j →
          (mkFns (F + 1)).revForIdent st (some rid) Option.none = .ok (some j)) ∧
       (∀ r1 r2 rest, cands = r1 :: r2 :: rest → ∃ msg,
          (mkFns (F + 1)).revForIdent st (some rid) Option.none =
            .error (.ResolutionError msg rid)))) := by
  intro F st rid
  constructor
  · intro j hj
    simp only [mkFns]
    simp [blTruthy, hj, finLineage, exceptOkBind]
  · intro hmiss
    refine ⟨?_, ?_, ?_⟩
    · intro hc
      refine ⟨"No such revision or branch " ++ rid ++
        (if rid.length < 4 then
          "; please ensure at least four characters are present for partial revision identifier matches"
         else ""), ?_⟩
      simp only [mkFns]
      simp only [blTruthy, Bool.false_eq_true, if_neg, exceptOkBind, hmiss]
      simp [hc]
    · intro r j hc hr
      simp only [mkFns]
      simp only [blTruthy, Bool.false_eq_true, if_neg, exceptOkBind, hmiss]
      simp [hc, hr, finLineage, exceptOkBind, blTruthy]
    · intro r1 r2 rest hc
      refine ⟨"Multiple revisions start with " ++ rid ++ ": " ++
        String.intercalate ", " ((r1 :: r2 :: rest).take 3), ?_⟩
      simp only [mkFns]
      simp only [blTruthy, Bool.false_eq_true, if_neg, exceptOkBind, hmiss]
      simp [hc, exceptOkBind]

theorem C3_amended_witness :
    assocLookup prefixMap.map_ "a" = Option.none ∧ "a".length < 4 ∧
    _revision_for_ident prefixMap (some "a") Option.none = .ok (some 0) :=
  ⟨rfl, by decide,
    ((C3_amended 15 prefixMap "a").2 rfl).2.1 "abcdef" 0 rfl rfl⟩

/-! ### Duplicate-insertion lemmas (C5) -/

theorem assocLookup_map_overwrite (k : String) (v : Nat) (k2 : String) :
    ∀ m : List (String × Nat),
      assocLookup (m.map (fun p => if p.1 = k then (k, v) else p)) k2 =
        if k2 = k then (if assocContains m k then some v else Option.none)
        else assocLookup m k2 := by
  intro m
  induction m with
  | nil => by_cases h2 : k2 = k <;> simp [assocLookup, assocContains, h2]
  | cons p rest ih =>
    by_cases hp : p.1 = k
    · by_cases h2 : k2 = k
      · simp [assocLookup, assocContains, hp, h2]
      · have hne : ¬((k : String) = k2) := fun h => h2 h.symm
        have hpk2 : ¬(p.1 = k2) := by rw [hp]; exact hne
        simp only [List.map_cons, hp, if_pos, assocLookup, hne, if_neg, if_false, hpk2]
        rw [ih]
        simp [h2]
    · by_cases h2 : k2 = k
      · have hpk2 : ¬(p.1 = k2) := by rw [h2]; exact hp
        simp only [List.map_cons, hp, if_neg, assocLookup, hpk2, if_false]
        rw [ih]
        simp [h2, assocContains, assocLookup, hp]
      · by_cases hpk2 : p.1 = k2
        · simp [assocLookup, hp, hpk2, h2]
        · simp only [List.map_cons, hp, if_neg, assocLookup, hpk2, if_false]
          rw [ih]
          simp [h2]

theorem assocLookup_append_single (m : List (String × Nat)) (k : String) (v : Nat)
    (k2 : String) :
    assocLookup (m ++ [(k, v)]) k2 =
      match assocLookup m k2 with
      | some w => some w
      | Option.none => if k2 = k then some v else Option.none := by
  induction m with
  | nil =>
    by_cases h2 : k2 = k
    · simp [assocLookup, h2]
    · have : ¬(k = k2) := fun h => h2 h.symm
      simp [assocLookup, h2, this]
  | cons p rest ih =>
    by_cases hpk2 : p.1 = k2
    · simp [assocLookup, hpk2]
    · simp only [List.cons_append, assocLookup, hpk2, if_false]
      exact ih

theorem assocLookup_insert (m : List (String × Nat)) (k : String) (v : Nat) (k2 : String) :
    assocLookup (assocInsert m k v) k2 = if k2 = k then some v else assocLookup m k2 := by
  by_cases hc : assocContains m k
  · rw [assocInsert, if_pos hc, assocLookup_map_overwrite]
    by_cases h2 : k2 = k <;> simp [h2, hc]
  · rw [assocInsert, if_neg hc, assocLookup_append_single]
    by_cases h2 : k2 = k
    · subst h2
      have : assocLookup m k2 = Option.none := by
        simp only [assocContains, Option.isSome] at hc
        cases h : assocLookup m k2 with
        | none => rfl
        | some w => rw [h] at hc; simp at hc
      simp [this]
    · cases h : assocLookup m k2 <;> simp [h2]

theorem phase1_store_size (ctx : BuildCtx) (r : Revision) :
    (phase1Step ctx r).store.size = ctx.store.size + 1 := by
  simp [phase1Step]

theorem lookup_foldl_phase1 : ∀ (records : List Revision) (ctx : BuildCtx) (k : String),
    assocLookup (records.foldl phase1Step ctx).map_ k =
      (match lastIdxWith records k with
       | some i => some (ctx.store.size + i)
       | Option.none => assocLookup ctx.map_ k) := by
  intro records
  induction records with
  | nil => intro ctx k; simp [lastIdxWith]
  | cons r rest ih =>
    intro ctx k
    rw [List.foldl_cons, ih (phase1Step ctx r) k]
    rw [phase1_store_size]
    cases hrest : lastIdxWith rest k with
    | some i =>
      simp only [lastIdxWith, hrest]
      congr 1
      omega
    | none =>
      by_cases hk : r.revision = k
      · simp only [lastIdxWith, hrest, hk, if_pos]
        have : (phase1Step ctx r).map_ = assocInsert ctx.map_ r.revision ctx.store.size := rfl
        rw [this, assocLookup_insert]
        simp [hk]
      · simp only [lastIdxWith, hrest, hk, if_neg, if_false]
        have : (phase1Step ctx r).map_ = assocInsert ctx.map_ r.revision ctx.store.size := rfl
        rw [this, assocLookup_insert]
        have hne : ¬(k = r.revision) := fun h => hk h.symm
        simp [hne]

theorem lastIdxWith_none : ∀ (records : List Revision) (k : String),
    lastIdxWith records k = Option.none →
    ∀ j, j < records.length → (records.getD j dfltRev).revision ≠ k := by
  intro records
  induction records with
  | nil => intro k _ j hj; simp at hj
  | cons r rest ih =>
    intro k hnone j hj
    cases hlast : lastIdxWith rest k with
    | some i => simp [lastIdxWith, hlast] at hnone
    | none =>
      simp only [lastIdxWith, hlast] at hnone
      by_cases hk : r.revision = k
      · simp [hk] at hnone
      · cases j with
        | zero => simpa using hk
        | succ j2 =>
          simp only [List.getD_cons_succ]
          exact ih k hlast j2 (by simpa using hj)

theorem lastIdxWith_spec : ∀ (records : List Revision) (k : String) (i : Nat),
    lastIdxWith records k = some i →
    i < records.length ∧ (records.getD i dfltRev).revision = k ∧
      ∀ j, i < j → j < records.length → (records.getD j dfltRev).revision ≠ k := by
  intro records
  induction records with
  | nil => intro k i h; simp [lastIdxWith] at h
  | cons r rest ih =>
    intro k i h
    cases hlast : lastIdxWith rest k with
    | some i2 =>
      simp only [lastIdxWith, hlast] at h
      cases h
      obtain ⟨hlt, hget, hmax⟩ := ih k i2 hlast
      refine ⟨by simpa using Nat.succ_lt_succ hlt, by simpa using hget, ?_⟩
      intro j hij hj
      cases j with
      | zero => omega
      | succ j2 =>
        simp only [List.getD_cons_succ]
        exact hmax j2 (by omega) (by simpa using hj)
    | none =>
      simp only [lastIdxWith, hlast] at h
      by_cases hk : r.revision = k
      · simp only [hk, if_pos] at h
        cases h
        refine ⟨by simp, by simpa using hk, ?_⟩
        intro j hij hj
        cases j with
        | zero => omega
        | succ j2 =>
          simp only [List.getD_cons_succ]
          exact lastIdxWith_none rest k hlast j2 (by simpa using hj)
      · simp [hk] at h

theorem phase1_warnings_mono : ∀ (records : List Revision) (ctx : BuildCtx) (w : String),
    w ∈ ctx.warnings → w ∈ (records.foldl phase1Step ctx).warnings := by
  intro records
  induction records with
  | nil => intro ctx w hw; simpa using hw
  | cons r rest ih =>
    intro ctx w hw
    rw [List.foldl_cons]
    apply ih
    simp only [phase1Step]
    by_cases hc : assocContains ctx.map_ r.revision
    · simp only [hc, if_pos]
      exact List.mem_append_left _ hw
    · simpa [hc] using hw

theorem phase1_contains_mono : ∀ (records : List Revision) (ctx : BuildCtx) (k : String),
    assocContains ctx.map_ k → assocContains (records.foldl phase1Step ctx).map_ k := by
  intro records
  induction records with
  | nil => intro ctx k hk; simpa using hk
  | cons r rest ih =>
    intro ctx k hk
    rw [List.foldl_cons]
    apply ih
    simp only [phase1Step, assocContains, assocLookup_insert]
    by_cases h2 : k = r.revision
    · simp [h2]
    · simp only [assocContains] at hk
      simp [h2, hk]

theorem phase1_contains_of_mem : ∀ (records : List Revision) (ctx : BuildCtx) (r : Revision),
    r ∈ records → assocContains (records.foldl phase1Step ctx).map_ r.revision := by
  intro records
  induction records with
  | nil => intro ctx r hr; simp at hr
  | cons r0 rest ih =>
    intro ctx r hr
    rw [List.foldl_cons]
    rcases List.mem_cons.mp hr with h | h
    · subst h
      apply phase1_contains_mono
      simp [phase1Step, assocContains, assocLookup_insert]
    · exact ih _ r h

theorem phase1_warns_dup : ∀ (records : List Revision) (ctx : BuildCtx) (r : Revision),
    r ∈ records → assocContains ctx.map_ r.revision →
    ("Revision " ++ r.revision ++ " is present more than once") ∈
      (records.foldl phase1Step ctx).warnings := by
  intro records
  induction records with
  | nil => intro ctx r hr; simp at hr
  | cons r0 rest ih =>
    intro ctx r hr hc
    rw [List.foldl_cons]
    rcases List.mem_cons.mp hr with h | h
    · subst h
      apply phase1_warnings_mono
      simp [phase1Step, hc]
    · apply ih _ r h
      simp only [phase1Step, assocContains, assocLookup_insert]
      by_cases h2 : r.revision = r0.revision
      · simp [h2]
      · simp only [assocContains] at hc
        simp [h2, hc]

/-- C5 (counterexample): with two records sharing the id `XXXX` (the first a
base, the second with `down_revision = BBBB`), the build warns and `by_id`
maps `XXXX` to the *second* record — its `down_revision` is `BBBB`, not the
first record's `None`. -/
theorem C5_counterexample :
    (buildMap dupRecs).1 = ["Revision XXXX is present more than once"] ∧
    ((buildMap dupRecs).2.map (fun m =>
      (assocLookup m.map_ "XXXX").map (fun j => (m.store.getD j dfltRev).down_revision))) =
      .ok (some (RevArg.str "BBBB")) ∧
    (dupRecs.getD 0 dfltRev).down_revision = RevArg.none :=
  ⟨rfl, rfl, rfl⟩

/-- C5 (amended): on duplicate ids the map builder emits the duplicate
warning and keeps the *last* inserted record: after the insertion loop
`by_id` maps each id to the record that appeared last in the provider's
iteration order (`lastIdxWith` returns the greatest index carrying the id,
as the spec conjuncts state), and any id occurring at two positions
produces the warning. -/
theorem C5_amended : ∀ (records : List Revision) (k : String),
    (assocLookup (buildPhase1 records).map_ k = lastIdxWith records k) ∧
    (∀ i, lastIdxWith records k = some i →
      i < records.length ∧ (records.getD i dfltRev).revision = k ∧
      ∀ j, i < j → j < records.length → (records.getD j dfltRev).revision ≠ k) ∧
    (∀ (pre mid post : List Revision) (r1 r2 : Revision),
      records = pre ++ r1 :: (mid ++ r2 :: post) → r1.revision = r2.revision →
      ("Revision " ++ r2.revision ++ " is present more than once") ∈
        (buildPhase1 records).warnings) := by
  intro records k
  refine ⟨?_, ?_, ?_⟩
  · rw [buildPhase1, lookup_foldl_phase1]
    cases h : lastIdxWith records k with
    | some i => simp [emptyCtx]
    | none => simp [emptyCtx, assocLookup]
  · intro i h
    exact lastIdxWith_spec records k i h
  · intro pre mid post r1 r2 hsplit hid
    subst hsplit
    rw [buildPhase1, List.foldl_append, List.foldl_cons]
    apply phase1_warns_dup _ _ r2 (by simp)
    rw [← hid]
    simp [phase1Step, assocContains, assocLookup_insert]

/-- C2 (counterexample): not every cyclically-constructed provider fails.
Records 1 and 2 of this provider form the directed down-cycle `c1 ↔ c2`
(`c2 ∈ down(c1)` and `c1 ∈ down(c2)`), yet with the head `h` above the cycle
and the base `b` below it every node stays inside the heads/bases
intersection, so the build completes successfully. -/
theorem C2_counterexample :
    ((buildMap evadeCycleRecs).2.map (fun m => m.heads)) = .ok ["h"] ∧
    "c2" ∈ toTuple (evadeCycleRecs.getD 1 dfltRev).down_revision ∧
    "c1" ∈ toTuple (evadeCycleRecs.getD 2 dfltRev).down_revision :=
  ⟨rfl, by decide, by decide⟩

/-- C2 (amended): the build raises `CycleDetected` exactly per the detection
algorithm — when the versioned heads or bases set is empty while the record
map is non-empty (carrying all map keys), or when some node lies outside the
intersection of ancestors-of-heads (via `down`) with descendants-of-bases
(via `nextrev`) (carrying the sorted ids); the dependency-view analogues
raise `DependencyCycleDetected`.  In particular the provider
`X(down=Y), Y(down=X)` leaves both heads and bases empty and raises
`CycleDetected([X, Y])`.  A cyclic provider whose every node stays inside
both intersections is *not* rejected (see the counterexample). -/
theorem C2_amended : ∀ (records : List Revision) (c1 c2 c3 c4 : BuildCtx),
    mapBranchLabels (buildPhase1 records) = (c1, Option.none) →
    addDependsOn c1 = (c2, Option.none) →
    wireEdges c2 = (c3, Option.none) →
    normalizeDependsOn c3 = (c4, Option.none) →
    (buildPhase1 records).map_ ≠ [] →
    ((c4.heads = [] ∨ c4.bases = [] →
      (buildMap records).2 = .error (.CycleDetected (assocKeys (buildPhase1 records).map_))) ∧
     (∀ l1 l2,
       c4.heads ≠ [] → c4.bases ≠ [] →
       iterRelated (fun j => (c4.store.getD j dfltRev)._versioned_down_revisions)
         (buildPhase1 records).map_ c4.store c4.heads false = .ok l1 →
       iterRelated (fun j => (c4.store.getD j dfltRev).nextrev)
         (buildPhase1 records).map_ c4.store c4.bases false = .ok l2 →
       ((deletedOf (buildPhase1 records).map_ c4.store l1 l2 ≠ [] →
          (buildMap records).2 = .error (.CycleDetected
            (sortStrings (deletedOf (buildPhase1 records).map_ c4.store l1 l2)))) ∧
        (deletedOf (buildPhase1 records).map_ c4.store l1 l2 = [] →
          c4._real_heads = [] ∨ c4._real_bases = [] →
          (buildMap records).2 =
            .error (.DependencyCycleDetected (assocKeys (buildPhase1 records).map_))) ∧
        (∀ l3 l4,
          deletedOf (buildPhase1 records).map_ c4.store l1 l2 = [] →
          c4._real_heads ≠ [] → c4._real_bases ≠ [] →
          iterRelated (fun j => (c4.store.getD j dfltRev)._all_down_revisions)
            (buildPhase1 records).map_ c4.store c4._real_heads false = .ok l3 →
          iterRelated (fun j => (c4.store.getD j dfltRev)._all_nextrev)
            (buildPhase1 records).map_ c4.store c4._real_bases false = .ok l4 →
          deletedOf (buildPhase1 records).map_ c4.store l3 l4 ≠ [] →
          (buildMap records).2 = .error (.DependencyCycleDetected
            (sortStrings (deletedOf (buildPhase1 records).map_ c4.store l3 l4))))))) := by
  intro records c1 c2 c3 c4 h1 h2 h3 h4 hne
  have hbuild : (buildMap records).2 =
      (match detectCycles (buildPhase1 records).map_ c4.store c4.heads c4.bases
          c4._real_heads c4._real_bases with
       | .error e => Except.error e
       | .ok _ =>
         match addBranches c4.map_ c4.hasBranchLabels c4.store with
         | .error e => Except.error e
         | .ok store' =>
           Except.ok
             { store := store', map_ := c4.map_,
               heads := revIdsOf c4.store c4.heads,
               _real_heads := revIdsOf c4.store c4._real_heads,
               bases := revIdsOf c4.store c4.bases,
               _real_bases := revIdsOf c4.store c4._real_bases }) := by
    simp only [buildMap, h1, h2, h3, h4]
    cases hdet : detectCycles (buildPhase1 records).map_ c4.store c4.heads c4.bases
        c4._real_heads c4._real_bases with
    | error e => rfl
    | ok u =>
      cases hadd : addBranches c4.map_ c4.hasBranchLabels c4.store with
      | error e => rfl
      | ok store' => rfl
  have hsnap : (buildPhase1 records).map_.isEmpty = false := by
    cases h : (buildPhase1 records).map_ with
    | nil => exact absurd h hne
    | cons p rest => simp [h]
  constructor
  · intro hempty
    rw [hbuild, detectCycles, if_neg (by simp [hsnap])]
    have : (c4.heads.isEmpty ∨ c4.bases.isEmpty) := by
      rcases hempty with h | h <;> simp [h]
    rw [if_pos this]
  · intro l1 l2 hheadsne hbasesne hl1 hl2
    have hhB : c4.heads.isEmpty = false := by
      cases h : c4.heads with
      | nil => exact absurd h hheadsne
      | cons a b => simp
    have hbB : c4.bases.isEmpty = false := by
      cases h : c4.bases with
      | nil => exact absurd h hbasesne
      | cons a b => simp
    refine ⟨?_, ?_, ?_⟩
    · intro hdel
      rw [hbuild, detectCycles, if_neg (by simp [hsnap]),
        if_neg (by simp [hhB, hbB]), hl1, hl2]
      have hdelB : (deletedOf (buildPhase1 records).map_ c4.store l1 l2).isEmpty = false := by
        cases h : deletedOf (buildPhase1 records).map_ c4.store l1 l2 with
        | nil => exact absurd h hdel
        | cons a b => simp
      simp only [hdelB]
      rfl
    · intro hdel hrempty
      rw [hbuild, detectCycles, if_neg (by simp [hsnap]),
        if_neg (by simp [hhB, hbB]), hl1, hl2]
      simp only [hdel, List.isEmpty_nil, Bool.not_false, if_neg]
      have : (c4._real_heads.isEmpty ∨ c4._real_bases.isEmpty) := by
        rcases hrempty with h | h <;> simp [h]
      simp only [this, if_pos]
      rfl
    · intro l3 l4 hdel hrh hrb hl3 hl4 hdel2
      have hrhB : c4._real_heads.isEmpty = false := by
        cases h : c4._real_heads with
        | nil => exact absurd h hrh
        | cons a b => simp
      have hrbB : c4._real_bases.isEmpty = false := by
        cases h : c4._real_bases with
        | nil => exact absurd h hrb
        | cons a b => simp
      rw [hbuild, detectCycles, if_neg (by simp [hsnap]),
        if_neg (by simp [hhB, hbB]), hl1, hl2]
      simp only [hdel, List.isEmpty_nil, Bool.not_false, if_neg]
      rw [hl3, hl4]
      have hdel2B : (deletedOf (buildPhase1 records).map_ c4.store l3 l4).isEmpty = false := by
        cases h : deletedOf (buildPhase1 records).map_ c4.store l3 l4 with
        | nil => exact absurd h hdel2
        | cons a b => simp
      simp only [hdel2B]
      have hreal : ¬(c4._real_heads.isEmpty = true ∨ c4._real_bases.isEmpty = true) := by
        simp [hrhB, hrbB]
      rw [if_neg hreal, if_pos (by decide : (!false) = true)]
      rfl

theorem C2_amended_witness :
    (buildMap xyCycleRecs).2 = .error (.CycleDetected ["X", "Y"]) ∧
    (buildMap depCycleRecs).2 = .error (.DependencyCycleDetected ["c1", "c2"]) :=
  ⟨(C2_amended xyCycleRecs _ _ _ _ rfl rfl rfl rfl (by decide)).1 (Or.inl rfl),
   ((C2_amended depCycleRecs _ _ _ _ rfl rfl rfl rfl (by decide)).2
       [1, 0, 2, 3] [0, 1, 2, 3] (by decide) (by decide) rfl rfl).2.2
     [1, 0] [0, 1] rfl (by decide) (by decide) rfl rfl (by decide)⟩

theorem C5_amended_witness :
    assocLookup (buildPhase1 dupRecs).map_ "XXXX" = lastIdxWith dupRecs "XXXX" ∧
    lastIdxWith dupRecs "XXXX" = some 1 ∧
    ("Revision XXXX is present more than once") ∈ (buildPhase1 dupRecs).warnings :=
  ⟨(C5_amended dupRecs "XXXX").1, rfl,
    (C5_amended dupRecs "XXXX").2.2 [] []
      [{ revision := "BBBB", down_revision := RevArg.none, dependencies := RevArg.none,
         _orig_branch_labels := [], branch_labels := [] }]
      (dupRecs.getD 0 dfltRev) (dupRecs.getD 1 dfltRev) rfl rfl⟩

/-! ### Kahn-sort lemmas (C6) -/

theorem exceptMapOk {ε α β : Type} (f : α → β) (e : Except ε α) (b : β)
    (h : e.map f = .ok b) : ∃ a, e = .ok a ∧ b = f a := by
  cases e with
  | error e2 => simp [Except.map] at h
  | ok a =>
    refine ⟨a, rfl, ?_⟩
    simpa [Except.map] using h.symm

theorem kahnSortAux_perm : ∀ (edges : List (String × String)) (n : Nat)
    (remaining out : List String),
    kahnSortAux edges n remaining = .ok out → out.Perm remaining := by
  intro edges n
  induction n with
  | zero =>
    intro remaining out h
    simp only [kahnSortAux] at h
    by_cases he : remaining.isEmpty
    · rw [if_pos he] at h
      cases h
      rw [List.isEmpty_iff.mp he]
    · rw [if_neg he] at h
      cases h
  | succ n2 ih =>
    intro remaining out h
    simp only [kahnSortAux] at h
    by_cases he : remaining.isEmpty
    · rw [if_pos he] at h
      cases h
      rw [List.isEmpty_iff.mp he]
    · rw [if_neg he] at h
      cases hf : remaining.find? (kahnReady edges remaining) with
      | none => rw [hf] at h; cases h
      | some x =>
        rw [hf] at h
        obtain ⟨out', hout', hcons⟩ := exceptMapOk _ _ _ h
        subst hcons
        have hx : x ∈ remaining := List.mem_of_find?_eq_some hf
        exact ((ih _ _ hout').cons x).trans (List.perm_cons_erase hx).symm

theorem kahnSortAux_prec : ∀ (edges : List (String × String)) (n : Nat)
    (remaining out : List String),
    kahnSortAux edges n remaining = .ok out →
    ∀ p c, (p, c) ∈ edges → p ≠ c → p ∈ remaining → c ∈ remaining →
      posOf out p < posOf out c := by
  intro edges n
  induction n with
  | zero =>
    intro remaining out h p c _ _ hp _
    simp only [kahnSortAux] at h
    by_cases he : remaining.isEmpty
    · rw [List.isEmpty_iff.mp he] at hp
      simp at hp
    · rw [if_neg he] at h
      cases h
  | succ n2 ih =>
    intro remaining out h p c hedge hpc hp hc
    simp only [kahnSortAux] at h
    by_cases he : remaining.isEmpty
    · rw [List.isEmpty_iff.mp he] at hp
      simp at hp
    · rw [if_neg he] at h
      cases hf : remaining.find? (kahnReady edges remaining) with
      | none => rw [hf] at h; cases h
      | some x =>
        rw [hf] at h
        obtain ⟨out', hout', hcons⟩ := exceptMapOk _ _ _ h
        subst hcons
        have hready : kahnReady edges remaining x = true := List.find?_some hf
        by_cases hcx : c = x
        · exfalso
          subst hcx
          rw [kahnReady, List.all_eq_true] at hready
          have := hready (p, c) hedge
          simp only [decide_eq_true_eq] at this
          rcases this with h1 | h1
          · exact h1 rfl
          · exact h1 hp
        · have hcerase : c ∈ remaining.erase x := (List.mem_erase_of_ne hcx).mpr hc
          by_cases hpx : p = x
          · subst hpx
            simp only [posOf, if_pos]
            have : ¬(c = p) := fun h2 => hpc h2.symm
            simp only [posOf, this, if_neg, if_false]
            exact Nat.succ_pos _
          · have hperase : p ∈ remaining.erase x := (List.mem_erase_of_ne hpx).mpr hp
            have := ih _ _ hout' p c hedge hpc hperase hcerase
            simp only [posOf, hpx, hcx, if_neg, if_false]
            omega

theorem insertSorted_perm (x : String) : ∀ l : List String,
    (insertSorted x l).Perm (x :: l) := by
  intro l
  induction l with
  | nil => simp [insertSorted]
  | cons y ys ih =>
    simp only [insertSorted]
    by_cases hle : strLe x y
    · rw [if_pos hle]
    · rw [if_neg hle]
      exact (ih.cons y).trans (List.Perm.swap x y ys)

theorem sortStrings_perm : ∀ l : List String, (sortStrings l).Perm l := by
  intro l
  induction l with
  | nil => simp [sortStrings]
  | cons x xs ih =>
    simp only [sortStrings]
    exact (insertSorted_perm x (sortStrings xs)).trans (ih.cons x)

/-- C6 (counterexample): the claim demands that any ancestor `a` of `b` via
`down ∪ resolved_deps` edges precede `b` in `topological_sort(S)` for every
finite subset `S`; but when the connecting path leaves `S`, no edge between
members survives (the edge construction only takes each member's *direct*
parents), so no ordering is enforced.  Here `ccc ← xxx ← bbb` and
`S = {bbb, ccc}`: `ccc` is an ancestor of `bbb` (the full-view ancestor walk
from `bbb` reaches it), yet the sort emits `bbb` before `ccc`. -/
theorem C6_counterexample :
    topological_sort midChainMap.store [2, 0] = .ok ["bbb", "ccc"] ∧
    iterRelated (ancestorSel midChainMap.store true) midChainMap.map_
      midChainMap.store [2] false = .ok [2, 1, 0] ∧
    (midChainMap.store.getD 0 dfltRev).revision = "ccc" ∧
    (midChainMap.store.getD 2 dfltRev).revision = "bbb" ∧
    posOf ["bbb", "ccc"] "bbb" < posOf ["bbb", "ccc"] "ccc" :=
  ⟨rfl, rfl, rfl, rfl, by decide⟩

/-- C6 (amended): `topological_sort(S)` returns a permutation of the ids of
`S`, and whenever a member's *declared* parent id (an entry of its
`down_revision` or raw `dependencies` tuple) is itself the id of a member,
the parent precedes the child; ties are broken by the spec-modelled
deterministic Kahn sort over the sorted id list.  Ancestry via paths leaving
`S`, or dependencies declared through a branch label rather than a revision
id, give no ordering guarantee (see the counterexample). -/
theorem C6_amended : ∀ (store : Array Revision) (S : List Nat) (out : List String),
    topological_sort store S = .ok out →
    out.Perm (revIdsOf store S) ∧
    (∀ j, j ∈ S →
      ∀ p, p ∈ toTuple (store.getD j dfltRev).down_revision ++
          toTuple (store.getD j dfltRev).dependencies →
        p ∈ revIdsOf store S → p ≠ (store.getD j dfltRev).revision →
        posOf out p < posOf out ((store.getD j dfltRev).revision)) := by
  intro store S out h
  rw [topological_sort, kahnSort] at h
  constructor
  · exact (kahnSortAux_perm _ _ _ _ h).trans (sortStrings_perm _)
  · intro j hj p hp hpS hpne
    have hedge : (p, (store.getD j dfltRev).revision) ∈ topoEdges store S := by
      rw [topoEdges]
      rcases List.mem_append.mp hp with hd | hdep
      · apply List.mem_append_left
        rw [List.mem_flatten]
        refine ⟨(toTuple (store.getD j dfltRev).down_revision).map
          (fun rev => (rev, (store.getD j dfltRev).revision)), ?_, ?_⟩
        · exact List.mem_map_of_mem _ hj
        · exact List.mem_map_of_mem _ hd
      · apply List.mem_append_right
        rw [List.mem_flatten]
        refine ⟨(toTuple (store.getD j dfltRev).dependencies).map
          (fun parent => (parent, (store.getD j dfltRev).revision)), ?_, ?_⟩
        · exact List.mem_map_of_mem _ hj
        · exact List.mem_map_of_mem _ hdep
    have hpIn : p ∈ sortStrings (revIdsOf store S) :=
      (sortStrings_perm _).mem_iff.mpr hpS
    have hcIn : (store.getD j dfltRev).revision ∈ sortStrings (revIdsOf store S) :=
      (sortStrings_perm _).mem_iff.mpr (List.mem_map_of_mem _ hj)
    exact kahnSortAux_prec _ _ _ _ h p _ hedge hpne hpIn hcIn

theorem C6_amended_witness :
    topological_sort midChainMap.store [0, 1, 2] = .ok ["ccc", "xxx", "bbb"] ∧
    posOf ["ccc", "xxx", "bbb"] "ccc" < posOf ["ccc", "xxx", "bbb"] "xxx" :=
  ⟨rfl, (C6_amended midChainMap.store [0, 1, 2] ["ccc", "xxx", "bbb"] rfl).2
    1 (by decide) "ccc" (by decide) (by decide) (by decide)⟩

/-! ### Traversal soundness (C7) -/

theorem lookupChildren_spec (m : List (String × Nat)) (store : Array Revision) :
    ∀ (rids : List String) (kids : List Nat),
    lookupChildren m store rids = .ok kids →
    ∀ k2, k2 ∈ kids → ∃ rid, rid ∈ rids ∧ assocLookup m rid = some k2 := by
  intro rids
  induction rids with
  | nil =>
    intro kids h k2 hk
    simp only [lookupChildren] at h
    cases h
    simp at hk
  | cons rid rest ih =>
    intro kids h k2 hk
    simp only [lookupChildren] at h
    cases hl : assocLookup m rid with
    | none => rw [hl] at h; cases h
    | some j =>
      simp only [hl] at h
      by_cases hrev : (store.getD j dfltRev).revision ≠ rid
      · rw [if_pos hrev] at h
        cases h
      · rw [if_neg hrev] at h
        obtain ⟨kids', hkids', hcons⟩ := exceptMapOk _ _ _ h
        subst hcons
        rcases List.mem_cons.mp hk with h2 | h2
        · exact ⟨rid, List.mem_cons_self _ _, h2 ▸ hl⟩
        · obtain ⟨rid2, hmem, hlook⟩ := ih kids' hkids' k2 h2
          exact ⟨rid2, List.mem_cons_of_mem _ hmem, hlook⟩

theorem walkOneF_sound (sel : Nat → List String) (m : List (String × Nat))
    (store : Array Revision) (t : Nat) :
    ∀ (fuel : Nat) (todo : List Nat) (seen : Finset Nat)
      (popped : List Nat) (s2 : Finset Nat) (y : List Nat),
    walkOneF sel m store fuel todo seen = .ok (popped, s2, y) →
    (∀ x ∈ todo, Reaches sel m t x) →
    ∀ x ∈ popped, Reaches sel m t x := by
  intro fuel
  induction fuel with
  | zero =>
    intro todo seen popped s2 y h htodo x hx
    cases todo with
    | nil =>
      simp only [walkOneF] at h
      cases h
      simp at hx
    | cons a b => simp only [walkOneF] at h; cases h
  | succ n ih =>
    intro todo seen popped s2 y h htodo x hx
    cases todo with
    | nil =>
      simp only [walkOneF] at h
      cases h
      simp at hx
    | cons rev rest =>
      simp only [walkOneF] at h
      by_cases hlt : rev < store.size
      · rw [if_pos hlt] at h
        by_cases hseen : rev ∈ seen
        · rw [if_pos hseen] at h
          obtain ⟨⟨p', s', y'⟩, hrec, heq⟩ := exceptMapOk _ _ _ h
          cases heq
          rcases List.mem_cons.mp hx with h2 | h2
          · exact h2 ▸ htodo rev (List.mem_cons_self _ _)
          · exact ih rest seen p' s' y' hrec
              (fun z hz => htodo z (List.mem_cons_of_mem _ hz)) x h2
        · rw [if_neg hseen] at h
          cases hkids : lookupChildren m store (sel rev) with
          | error e => rw [hkids] at h; cases h
          | ok kids =>
            rw [hkids] at h
            obtain ⟨⟨p', s', y'⟩, hrec, heq⟩ := exceptMapOk _ _ _ h
            cases heq
            rcases List.mem_cons.mp hx with h2 | h2
            · exact h2 ▸ htodo rev (List.mem_cons_self _ _)
            · apply ih _ _ p' s' y' hrec ?_ x h2
              intro z hz
              rcases List.mem_append.mp hz with hzk | hzr
              · obtain ⟨rid, hrid, hlook⟩ :=
                  lookupChildren_spec m store (sel rev) kids hkids z
                    (List.mem_reverse.mp hzk)
                exact Reaches.step rid (htodo rev (List.mem_cons_self _ _)) hrid hlook
              · exact htodo z (List.mem_cons_of_mem _ hzr)
      · rw [if_neg hlt] at h
        cases h

theorem reaches_mem_closed {sel : Nat → List String} {m : List (String × Nat)}
    {t j : Nat} (h : Reaches sel m t j) :
    ∀ (S : List Nat), t ∈ S →
    (∀ a ∈ S, ∀ rid ∈ sel a, ∀ b, assocLookup m rid = some b → b ∈ S) → j ∈ S := by
  induction h with
  | refl => intro S ht _; exact ht
  | step rid _ hrid hlook ih =>
    intro S ht hclosed
    exact hclosed _ (ih S ht hclosed) rid hrid _ hlook

theorem closedUnder_spec {sel : Nat → List String} {m : List (String × Nat)}
    {S : List Nat} (h : closedUnder sel m S = true) :
    ∀ a ∈ S, ∀ rid ∈ sel a, ∀ b, assocLookup m rid = some b → b ∈ S := by
  intro a ha rid hrid b hb
  rw [closedUnder, List.all_eq_true] at h
  have h2 := h a ha
  rw [List.all_eq_true] at h2
  have h3 := h2 rid hrid
  rw [hb] at h3
  simpa using h3

/-- C7 (counterexample): with the two starts `Xyz3` (object id 2) and
`Cde4` (id 3) whose reach sets both contain the non-start nodes `Bcd2` (1)
and `Abc1` (0), the check-mode walk completes without error: overlap on a
non-start node is not reported. -/
theorem C7_counterexample :
    iterRelated (ancestorSel overlapMap.store true) overlapMap.map_
      overlapMap.store [2, 3] true = .ok [2, 1, 0, 3] ∧
    iterRelated (ancestorSel overlapMap.store true) overlapMap.map_
      overlapMap.store [2] false = .ok [2, 1, 0] ∧
    iterRelated (ancestorSel overlapMap.store true) overlapMap.map_
      overlapMap.store [3] false = .ok [3, 1, 0] ∧
    (1 ∈ [2, 1, 0] ∧ 1 ∈ [3, 1, 0] ∧ 1 ∉ [2, 3]) :=
  ⟨rfl, rfl, rfl, by decide⟩

/-- C7 (amended): check mode reports an error only when another *start*
revision is popped during a start's walk; when no start is reachable from
any other start, the check-mode traversal behaves exactly like the plain
traversal even if the starts' reach sets overlap on non-start nodes. -/
theorem C7_amended : ∀ (sel : Nat → List String) (m : List (String × Nat))
    (store : Array Revision) (targets : List Nat),
    (∀ t ∈ targets, ∀ t2 ∈ targets, t2 ≠ t → ¬Reaches sel m t t2) →
    iterRelated sel m store targets true = iterRelated sel m store targets false := by
  intro sel m store targets hnr
  have aux : ∀ (ts : List Nat) (seen : Finset Nat) (out : List Nat),
      (∀ t ∈ ts, t ∈ targets) →
      iterRelatedAux sel m store targets true ts seen out =
        iterRelatedAux sel m store targets false ts seen out := by
    intro ts
    induction ts with
    | nil => intro seen out _; rfl
    | cons t ts' ih =>
      intro seen out hsub
      simp only [iterRelatedAux]
      cases hw : walkOne sel m store [t] seen with
      | error e => rfl
      | ok res =>
        obtain ⟨popped, seen2, y⟩ := res
        have hover : popped.filter (fun j => decide (j ∈ targets ∧ j ≠ t)) = [] := by
          rw [List.filter_eq_nil_iff]
          intro a ha
          simp only [decide_eq_true_eq]
          intro hand
          obtain ⟨hin, hne⟩ := hand
          have hreach : Reaches sel m t a := by
            apply walkOneF_sound sel m store t _ [t] seen popped seen2 y hw
              ?_ a ha
            intro x hx
            rcases List.mem_cons.mp hx with h2 | h2
            · exact h2 ▸ Reaches.refl
            · simp at h2
          exact hnr t (hsub t (List.mem_cons_self _ _)) a hin hne hreach

        dsimp only
        rw [hover]
        simp only [List.dedup_nil, List.isEmpty_nil, not_true, and_false, if_false,
          Bool.false_eq_true, false_and, if_neg, not_false_iff]
        exact ih _ _ (fun z hz => hsub z (List.mem_cons_of_mem _ hz))
  exact aux targets ∅ [] (fun t ht => ht)

theorem C7_amended_witness :
    iterRelated (ancestorSel overlapMap.store true) overlapMap.map_
      overlapMap.store [2, 3] true =
    iterRelated (ancestorSel overlapMap.store true) overlapMap.map_
      overlapMap.store [2, 3] false := by
  apply C7_amended
  intro t ht t2 ht2 hne hr
  have hmem : ∀ z ∈ ([2, 3] : List Nat), z = 2 ∨ z = 3 := by decide
  rcases hmem t ht with h2 | h2 <;> rcases hmem t2 ht2 with h3 | h3 <;>
    subst h2 <;> subst h3
  · exact hne rfl
  · have := reaches_mem_closed hr [2, 1, 0] (by decide)
      (closedUnder_spec (by decide))
    simp at this
  · have := reaches_mem_closed hr [3, 1, 0] (by decide)
      (closedUnder_spec (by decide))
    simp at this
  · exact hne rfl

/-! ### Negative relative identifiers (C10) -/

/-- One-level unfolding of the resolver on a single identifier: the level
`n + 1` body of `get_revisions`, with nested calls delegated to level `n`. -/
theorem mkFns_getRevisions_single (n : Nat) (st : RMap) (s : Option String) :
    (mkFns (n + 1)).getRevisions st (.single s) =
      ((mkFns n).resolveRevisionNumber st s) >>= (fun pr =>
        match pr.1 with
        | [one] =>
          (match pyIntParse one with
           | some v =>
             if v < 0 then
               ((mkFns n).getRevisions st (.single (some "heads"))) >>= (fun sh =>
                 match pr.2 with
                 | Option.none =>
                   Except.ok sh >>= (fun sel => walkAll ((mkFns n).walkDown st) v.natAbs sel)
                 | some b =>
                   selectByLabel st.store b sh >>= (fun sel =>
                     walkAll ((mkFns n).walkDown st) v.natAbs sel))
             else
               identResolveAll (fun rid => (mkFns n).revForIdent st (some rid) pr.2) pr.1
           | Option.none =>
             identResolveAll (fun rid => (mkFns n).revForIdent st (some rid) pr.2) pr.1)
        | _ => identResolveAll (fun rid => (mkFns n).revForIdent st (some rid) pr.2) pr.1) :=
  rfl

/-- One-level unfolding of `walk_down` from a real revision: the loop runs
with the previous level resolving the down tuple. -/
theorem mkFns_walkDown_some (n : Nat) (st : RMap) (j steps : Nat) :
    (mkFns (n + 1)).walkDown st (some j) steps =
      walkDownLoopH ((mkFns n).getRevisions st) st.store (some j) steps :=
  rfl

/-- C10: when a queried identifier's body parses as a negative integer, no
id lookup happens: `get_revisions` resolves `"heads"`, restricts the heads
to those carrying the branch label when one was given, and walks each
selected head down by `|offset|` single steps; a walk past a base yields
`None` and a walk hitting a merge point (several down revisions) raises
`RevisionError`. -/
theorem C10_negative_walk :
    (∀ (F : Nat) (st : RMap) (q body : String) (blOpt : Option String) (v : Int)
      (sh sel : List (Option Nat)),
      splitBranch q = (blOpt, body) →
      pyIntParse body = some v → v < 0 →
      body ≠ "heads" → body ≠ "head" → body ≠ "base" →
      (mkFns (F + 1)).getRevisions st (.single (some "heads")) = .ok sh →
      selHeadsFor st.store blOpt sh = .ok sel →
      (mkFns (F + 2)).getRevisions st (.single (some q)) =
        walkAll ((mkFns (F + 1)).walkDown st) v.natAbs sel) ∧
    (∀ (G : Nat) (st : RMap) (j n : Nat),
      (st.store.getD j dfltRev).down_revision = RevArg.none →
      (mkFns (G + 3)).walkDown st (some j) (n + 1) = .ok Option.none) ∧
    (∀ (G : Nat) (st : RMap) (j n : Nat) (ch : List (Option Nat)),
      (mkFns (G + 2)).getRevisions st (idInputOfArg (st.store.getD j dfltRev).down_revision) =
        .ok ch →
      2 ≤ ch.length →
      (mkFns (G + 3)).walkDown st (some j) (n + 1) =
        .error (.RevisionError "Tried to walk down across a merge")) := by
  refine ⟨?_, ?_, ?_⟩
  · intro F st q body blOpt v sh sel h1 h2 h3 hh1 hh2 hh3 hheads hsel
    have hres : (mkFns (F + 1)).resolveRevisionNumber st (some q) = .ok ([body], blOpt) := by
      simp only [mkFns]
      rw [h1]
      dsimp only
      rw [if_neg hh1, if_neg hh2, if_neg hh3]
    have e2 : F + 2 = F + 1 + 1 := rfl
    rw [e2, mkFns_getRevisions_single (F + 1) st (some q), hres, exceptOkBind]
    dsimp only
    rw [h2]
    dsimp only
    rw [if_pos h3, hheads, exceptOkBind]
    cases blOpt with
    | none =>
      simp only [selHeadsFor] at hsel
      cases hsel
      rw [exceptOkBind]
    | some b =>
      simp only [selHeadsFor] at hsel
      dsimp only
      rw [hsel, exceptOkBind]
  · intro G st j n hdown
    have hnone : (mkFns (G + 2)).getRevisions st (.single Option.none) = .ok [] := rfl
    have e3 : G + 3 = G + 2 + 1 := rfl
    rw [e3, mkFns_walkDown_some (G + 2) st j (n + 1)]
    simp only [walkDownLoopH]
    rw [hdown]
    simp only [idInputOfArg]
    rw [hnone, exceptOkBind]
  · intro G st j n ch hch hlen
    have e3 : G + 3 = G + 2 + 1 := rfl
    rw [e3, mkFns_walkDown_some (G + 2) st j (n + 1)]
    simp only [walkDownLoopH]
    rw [hch, exceptOkBind]
    cases ch with
    | nil => simp at hlen
    | cons a t =>
      cases t with
      | nil => simp at hlen
      | cons b r => rfl

theorem C10_negative_walk_witness :
    get_revisions labeledChainMap (.single (some "lbl@-2")) =
      walkAll ((mkFns 15).walkDown labeledChainMap) 2 [some 2] ∧
    walkAll ((mkFns 15).walkDown labeledChainMap) 2 [some 2] = .ok [some 0] ∧
    (labeledChainMap.store.getD 0 dfltRev).revision = "t1" :=
  ⟨C10_negative_walk.1 14 labeledChainMap "lbl@-2" "-2" (some "lbl") (-2) [some 2] [some 2]
      rfl rfl (by decide) (by decide) (by decide) (by decide) rfl rfl,
   rfl, rfl⟩

/-! ### The upgrade planner (C1) -/

theorem exceptPureBind {ε α β : Type} (a : α) (f : α → Except ε β) :
    ((pure a : Except ε α) >>= f) = f a := rfl

/-- Inversion of a successful bind. -/
theorem exceptBindOkInv {ε α β : Type} (e : Except ε α) (g : α → Except ε β) (b : β)
    (h : (e >>= g) = .ok b) : ∃ a, e = .ok a ∧ g a = .ok b := by
  cases e with
  | error e2 => rw [exceptErrBind] at h; simp at h
  | ok a => rw [exceptOkBind] at h; exact ⟨a, rfl, h⟩

theorem assocContains_exists (m : List (String × Nat)) (k : String)
    (h : assocContains m k = true) : ∃ v, assocLookup m k = some v := by
  rw [assocContains, Option.isSome_iff_exists] at h
  exact h

theorem assocLookup_inValues : ∀ (m : List (String × Nat)) (k : String) (v : Nat),
    assocLookup m k = some v → inMapValues m v = true := by
  intro m
  induction m with
  | nil => intro k v h; simp [assocLookup] at h
  | cons p rest ih =>
    intro k v h
    rw [assocLookup] at h
    by_cases hp : p.1 = k
    · rw [if_pos hp] at h
      cases h
      simp [inMapValues]
    · rw [if_neg hp] at h
      have := ih k v h
      rw [inMapValues, List.any_eq_true] at this ⊢
      obtain ⟨q, hq, hqv⟩ := this
      exact ⟨q, List.mem_cons_of_mem p hq, hqv⟩

/-- The well-formedness facts `mapWF` gives about the id of any dict value. -/
theorem mapWF_props (st : RMap) (hwf : mapWF st = true) (x : Nat)
    (hx : inMapValues st.map_ x = true) :
    assocContains st.map_ ((st.store.getD x dfltRev).revision) = true ∧
    strHasChar ((st.store.getD x dfltRev).revision) '@' = false ∧
    ((st.store.getD x dfltRev).revision ≠ "heads" ∧
     (st.store.getD x dfltRev).revision ≠ "head" ∧
     (st.store.getD x dfltRev).revision ≠ "base") := by
  rw [inMapValues, List.any_eq_true] at hx
  obtain ⟨p, hp, hpx⟩ := hx
  rw [decide_eq_true_eq] at hpx
  rw [mapWF, List.all_eq_true] at hwf
  have h := hwf p hp
  rw [← hpx]
  simp only [Bool.and_eq_true, Bool.not_eq_true', decide_eq_true_eq,
    decide_eq_false_iff_not] at h
  exact ⟨h.2.1.1.1.1, h.2.1.1.1.2, h.2.1.1.2, h.2.1.2, h.2.2⟩

/-- One-level unfolding of `get_revision`. -/
theorem mkFns_getRevision (n : Nat) (st : RMap) (id_ : Option String) :
    (mkFns (n + 1)).getRevision st id_ =
      ((mkFns n).resolveRevisionNumber st id_) >>= (fun pr =>
        match pr.1 with
        | _ :: _ :: _ =>
          .error (.MultipleHeads pr.1 (match id_ with | some s => s | Option.none => "None"))
        | [r] => (mkFns n).revForIdent st (some r) pr.2
        | [] => (mkFns n).revForIdent st Option.none pr.2) :=
  rfl

/-- Resolving a plain id (no `@`, not a symbolic name) passes it through. -/
theorem mkFns_resolve_plain (n : Nat) (st : RMap) (rid : String)
    (h1 : strHasChar rid '@' = false) (h2 : rid ≠ "heads") (h3 : rid ≠ "head")
    (h4 : rid ≠ "base") :
    (mkFns (n + 1)).resolveRevisionNumber st (some rid) = .ok ([rid], Option.none) := by
  have hsb : splitBranch rid = (Option.none, rid) := by
    rw [splitBranch, h1]
    simp
  simp only [mkFns]
  rw [hsb]
  dsimp only
  rw [if_neg h2, if_neg h3, if_neg h4]

/-- `_revision_for_ident` on an exact dict key with no branch check. -/
theorem mkFns_revForIdent_plain (n : Nat) (st : RMap) (rid : String) (j : Nat)
    (hl : assocLookup st.map_ rid = some j) :
    (mkFns (n + 1)).revForIdent st (some rid) Option.none = .ok (some j) := by
  simp only [mkFns]
  simp [blTruthy, exceptOkBind, hl, finLineage]

/-- Under `mapWF`, `get_revision` of a dict value's own id succeeds and
returns a dict value. -/
theorem getRevision_inMapValues (K : Nat) (st : RMap) (x : Nat)
    (hwf : mapWF st = true) (hx : inMapValues st.map_ x = true) :
    ∃ j, (mkFns (K + 2)).getRevision st (some ((st.store.getD x dfltRev).revision)) =
        .ok (some j) ∧ inMapValues st.map_ j = true := by
  obtain ⟨hc, hat, hh1, hh2, hh3⟩ := mapWF_props st hwf x hx
  obtain ⟨j, hj⟩ := assocContains_exists _ _ hc
  refine ⟨j, ?_, assocLookup_inValues _ _ _ hj⟩
  have e2 : K + 2 = K + 1 + 1 := rfl
  rw [e2, mkFns_getRevision (K + 1) st _]
  rw [mkFns_resolve_plain K st _ hat hh1 hh2 hh3, exceptOkBind]
  dsimp only
  exact mkFns_revForIdent_plain K st _ j hj

theorem mapM_ok_mem {α β : Type} (g : α → Except RevErr β) :
    ∀ (l : List α) (out : List β), l.mapM g = .ok out →
      ∀ b ∈ out, ∃ a ∈ l, g a = .ok b := by
  intro l
  induction l with
  | nil =>
    intro out h b hb
    rw [List.mapM_nil, show (pure [] : Except RevErr (List β)) = Except.ok [] from rfl] at h
    cases h
    simp at hb
  | cons a rest ih =>
    intro out h b hb
    rw [List.mapM_cons] at h
    obtain ⟨b1, hb1, h2⟩ := exceptBindOkInv _ _ _ h
    obtain ⟨bs, hbs, h3⟩ := exceptBindOkInv _ _ _ h2
    rw [show (pure (b1 :: bs) : Except RevErr (List β)) = Except.ok (b1 :: bs) from rfl] at h3
    cases h3
    rcases List.mem_cons.mp hb with rfl | hmem
    · exact ⟨a, List.mem_cons_self a rest, hb1⟩
    · obtain ⟨a2, ha2, hga⟩ := ih bs hbs b hmem
      exact ⟨a2, List.mem_cons_of_mem a ha2, hga⟩

theorem mem_foldl_add (b : List Nat) : ∀ (acc : List Nat) (x : Nat),
    (x ∈ b.foldl (fun l y => if y ∈ l then l else l ++ [y]) acc) ↔ x ∈ acc ∨ x ∈ b := by
  induction b with
  | nil => intro acc x; simp
  | cons y ys ih =>
    intro acc x
    rw [List.foldl_cons, ih]
    by_cases hy : y ∈ acc
    · rw [if_pos hy]
      simp only [List.mem_cons]
      constructor
      · rintro (h | h)
        · exact Or.inl h
        · exact Or.inr (Or.inr h)
      · rintro (h | h | h)
        · exact Or.inl h
        · exact Or.inl (h ▸ hy)
        · exact Or.inr h
    · rw [if_neg hy]
      simp only [List.mem_append, List.mem_singleton, List.mem_cons]
      tauto

theorem mem_listUnionN (a b : List Nat) (x : Nat) :
    x ∈ listUnionN a b ↔ x ∈ a ∨ x ∈ b := by
  rw [listUnionN, mem_foldl_add, List.mem_dedup]

theorem mem_listDiffN (a b : List Nat) (x : Nat) :
    x ∈ listDiffN a b ↔ x ∈ a ∧ x ∉ b := by
  simp [listDiffN, List.mem_filter]

theorem mem_listInterN (a b : List Nat) (x : Nat) :
    x ∈ listInterN a b ↔ x ∈ a ∧ x ∈ b := by
  simp [listInterN, List.mem_filter]

/-- C1 (counterexample): the claim says the §8 plan `upgrade("heads",
"base")` yields `[A, E, F, B, C, D]`, each revision after its yielded
predecessors.  The planner reverses the topological sort, yielding the
children-first order `[D, F, E, C, B, A]`: `B` (whose down revision is `A`)
appears before `A`, not after it. -/
theorem C1_counterexample :
    upgradePlan scenarioMap "heads" (some "base") false false =
      .ok [some 3, some 5, some 4, some 2, some 1, some 0] ∧
    revIdsOf scenarioMap.store [3, 5, 4, 2, 1, 0] = ["D", "F", "E", "C", "B", "A"] ∧
    ["D", "F", "E", "C", "B", "A"] ≠ ["A", "E", "F", "B", "C", "D"] ∧
    toTuple ((scenarioMap.store.getD 1 dfltRev).down_revision) = ["A"] ∧
    posOf ["D", "F", "E", "C", "B", "A"] "B" < posOf ["D", "F", "E", "C", "B", "A"] "A" :=
  ⟨rfl, rfl, by decide, rfl, by decide⟩

/-- C1 (amended): with `inclusive=False, implicit_base=False` and a lower
bound that is not branch-qualified, the planner computes
`needs = (ancestors(targets) ∪ targets) - (ancestors(current) ∪ current)`,
additionally intersected with the descendants of the current revisions when
`current` is non-empty (a restriction the original claim omits), and yields
the *reverse* of `topological_sort(needs)` — children first, each revision
before its yielded predecessors — resolved through `get_revision`; under
`mapWF`, when every member of `needs` is a dict value, every yielded entry
is a non-null dict value. -/
theorem C1_amended : ∀ (K : Nat) (st : RMap) (upper : String) (lower : Option String)
    (tRaw : List (Option Nat)) (tgtIds anc : List Nat) (curRaw : List (Option Nat))
    (curIds ancCur desc : List Nat),
    (∀ ls, lower = some ls → strHasChar ls '@' = false) →
    parseUpgradeTarget (mkFns (K + 2)) st lower upper = .ok (some tRaw) →
    expectIds tRaw = .ok tgtIds →
    iterRelated (ancestorSel st.store true) st.map_ st.store tgtIds true = .ok anc →
    (mkFns (K + 2)).getRevisions st (idInputOfLower lower) = .ok curRaw →
    expectIds curRaw = .ok curIds →
    iterRelated (ancestorSel st.store true) st.map_ st.store curIds true = .ok ancCur →
    iterRelated (descendantSel st.store curIds false false) st.map_ st.store curIds true =
      .ok desc →
    (∀ x, x ∈ plannerNeeds anc tgtIds ancCur curIds desc ↔
      ((x ∈ anc ∨ x ∈ tgtIds) ∧ ¬(x ∈ ancCur ∨ x ∈ curIds) ∧
        (curIds = [] ∨ x ∈ desc))) ∧
    (iterateRevisionsUpgrade (mkFns (K + 2)) st upper lower false false =
      (topological_sort st.store (plannerNeeds anc tgtIds ancCur curIds desc)) >>=
        (fun sorted =>
          sorted.reverse.mapM (fun node => (mkFns (K + 2)).getRevision st (some node)))) ∧
    (mapWF st = true →
      (∀ x, x ∈ plannerNeeds anc tgtIds ancCur curIds desc → inMapValues st.map_ x = true) →
      ∀ out, iterateRevisionsUpgrade (mkFns (K + 2)) st upper lower false false = .ok out →
        ∀ o ∈ out, ∃ j, o = some j ∧ inMapValues st.map_ j = true) := by
  intro K st upper lower tRaw tgtIds anc curRaw curIds ancCur desc
  intro hlow hparse htgt hanc hcur hcurIds hancCur hdesc
  have hb : iterateRevisionsUpgrade (mkFns (K + 2)) st upper lower false false =
      (topological_sort st.store (plannerNeeds anc tgtIds ancCur curIds desc)) >>=
        (fun sorted =>
          sorted.reverse.mapM (fun node => (mkFns (K + 2)).getRevision st (some node))) := by
    rw [iterateRevisionsUpgrade, hparse, exceptOkBind]
    dsimp only
    cases lower with
    | none =>
      rw [exceptPureBind]
      dsimp only
      rw [htgt, exceptOkBind, hanc, exceptOkBind]
      rw [hcur, exceptOkBind, hcurIds, exceptOkBind, hancCur, exceptOkBind]
      rw [if_neg (by decide : ¬ (false = true)), exceptPureBind]
      by_cases hemp : curIds = []
      · rw [if_neg (by simp [hemp]), exceptPureBind]
        rw [plannerNeeds, if_pos (by simp [hemp])]
      · rw [if_pos ⟨by simp [hemp], by decide⟩]
        rw [hdesc, exceptOkBind]
        rw [exceptPureBind]
        rw [plannerNeeds, if_neg (by simp [hemp])]
    | some ls =>
      have hlow2 : strHasChar ls '@' = false := hlow ls rfl
      dsimp only
      rw [hlow2, if_neg (by decide : ¬ (false = true)), exceptPureBind]
      rw [htgt, exceptOkBind, hanc, exceptOkBind]
      rw [hcur, exceptOkBind, hcurIds, exceptOkBind, hancCur, exceptOkBind]
      rw [if_neg (by decide : ¬ (false = true)), exceptPureBind]
      by_cases hemp : curIds = []
      · rw [if_neg (by simp [hemp]), exceptPureBind]
        rw [plannerNeeds, if_pos (by simp [hemp])]
      · rw [if_pos ⟨by simp [hemp], by decide⟩]
        rw [hdesc, exceptOkBind]
        rw [exceptPureBind]
        rw [plannerNeeds, if_neg (by simp [hemp])]
  refine ⟨?_, hb, ?_⟩
  · intro x
    rw [plannerNeeds]
    by_cases hemp : curIds = []
    · rw [if_pos (by simp [hemp])]
      subst hemp
      simp [mem_listDiffN, mem_listUnionN]
    · rw [if_neg (by simp [hemp])]
      simp [mem_listInterN, mem_listDiffN, mem_listUnionN, hemp]
      tauto
  · intro hwf hneeds out hout o ho
    rw [hb] at hout
    obtain ⟨sorted, hts, hmap⟩ := exceptBindOkInv _ _ _ hout
    have hperm : sorted.Perm
        (revIdsOf st.store (plannerNeeds anc tgtIds ancCur curIds desc)) := by
      rw [topological_sort, kahnSort] at hts
      exact (kahnSortAux_perm _ _ _ _ hts).trans (sortStrings_perm _)
    obtain ⟨node, hnode, hga⟩ := mapM_ok_mem _ _ _ hmap o ho
    have hnode2 : node ∈
        revIdsOf st.store (plannerNeeds anc tgtIds ancCur curIds desc) :=
      hperm.mem_iff.mp (List.mem_reverse.mp hnode)
    rw [revIdsOf, List.mem_map] at hnode2
    obtain ⟨xx, hxx, hxn⟩ := hnode2
    obtain ⟨j, hgj, hjv⟩ := getRevision_inMapValues K st xx hwf (hneeds xx hxx)
    rw [← hxn, hgj] at hga
    cases hga
    exact ⟨j, rfl, hjv⟩

theorem C1_amended_witness :
    iterateRevisionsUpgrade (mkFns 16) scenarioMap "heads" (some "base") false false =
      (topological_sort scenarioMap.store
          (plannerNeeds [2, 1, 0, 3, 5, 4] [2, 3] [] [] [])) >>=
        (fun sorted =>
          sorted.reverse.mapM (fun node => (mkFns 16).getRevision scenarioMap (some node))) ∧
    5 ∈ plannerNeeds [2, 1, 0, 3, 5, 4] [2, 3] [] [] [] :=
  ⟨(C1_amended 14 scenarioMap "heads" (some "base") [some 2, some 3] [2, 3]
      [2, 1, 0, 3, 5, 4] [] [] [] []
      (fun ls h => by cases h; rfl) rfl rfl rfl rfl rfl rfl rfl).2.1,
   ((C1_amended 14 scenarioMap "heads" (some "base") [some 2, some 3] [2, 3]
      [2, 1, 0, 3, 5, 4] [] [] [] []
      (fun ls h => by cases h; rfl) rfl rfl rfl rfl rfl rfl rfl).1 5).mpr
     (by decide)⟩

end Alembic
